import Mathlib

/-!
Verification of the Zheng-2011 evacuation cellular-automaton engine.

The C sources are embedded shallowly: machine doubles become `ℚ` (exact
arithmetic), `int` becomes `ℤ`, grids become functions `Loc → ℤ` / `Loc → ℚ`,
and the library calls `exp` and `sqrt` become explicit function parameters
(`expf`, `sqrtf`) about which the theorems assume only the properties the
real functions enjoy (positivity, nonnegativity).  The pseudo-random stream
is passed in as explicit draw values.
-/

set_option maxHeartbeats 1000000

/-- Grid coordinates, `shared_resources.h`: `typedef struct { int lin; int col; } Location`. -/
structure Loc where
  lin : ℤ
  col : ℤ
deriving DecidableEq, Repr

/-- `shared_resources.h`: `#define IMPASSABLE_OBJECT -1000`. -/
def IMPASSABLE_OBJECT : ℤ := -1000

/-- `shared_resources.h`: `#define EXIT_CELL -1001`. -/
def EXIT_CELL : ℤ := -1001

/-- `shared_resources.h`: `#define EMPTY_CELL -1002`. -/
def EMPTY_CELL : ℤ := -1002

/-- Modelled from the spec: the header `fire_dynamics.h` that defines the wall
sentinel used on float fields is not among the sources.  The spec (§3) says the
sentinels are numeric constants distinct from any legal field value, and both
`calculate_zheng_static_field` (which stores `IMPASSABLE_OBJECT` on walls) and
`calculate_transition_probabilities` / `is_diagonal_valid` (which test the same
static field against `WALL_CELL`) require `WALL_CELL` to be the sentinel the
static field stores on walls, hence `WALL_CELL = IMPASSABLE_OBJECT`. -/
def WALL_CELL : ℤ := -1000

/-- Modelled from the spec: `fire_dynamics.h` is not among the sources.  The
fire sentinel only needs to be distinct from the other sentinels (spec §3);
it continues the `-1000, -1001, -1002` pattern of `shared_resources.h`. -/
def FIRE_CELL : ℤ := -1003

/-- Modelled from the spec: `fire_dynamics.h` is not among the sources.  The
blocked-exit sentinel only needs to be distinct from the other sentinels
(spec §3). -/
def BLOCKED_EXIT_CELL : ℤ := -1004

/-- `shared_resources.h`: `#define TOLERANCE 1E-10`. -/
def TOLERANCE : ℚ := 1 / 10000000000

/-- `fire_field.h`: `#define NON_RISKY_CELLS 0`. -/
def NON_RISKY_CELLS : ℤ := 0

/-- `fire_field.h`: `#define RISKY_CELL 1`. -/
def RISKY_CELL : ℤ := 1

/-- `fire_field.h`: `#define DANGER_CELL 2`. -/
def DANGER_CELL : ℤ := 2

/-- `grid.h`: `typedef int ** Int_Grid`, embedded as a total map from cells. -/
def Int_Grid : Type := Loc → ℤ

/-- `grid.h`: `typedef double ** Double_Grid`, embedded with exact rationals. -/
def Double_Grid : Type := Loc → ℚ

/-- A single assignment `grid[c.lin][c.col] = v`. -/
def write_int_grid (g : Int_Grid) (c : Loc) (v : ℤ) : Int_Grid :=
  fun d => if d = c then v else g d

/-- A single assignment `grid[c.lin][c.col] = v` on a double grid. -/
def write_double_grid (g : Double_Grid) (c : Loc) (v : ℚ) : Double_Grid :=
  fun d => if d = c then v else g d

/-- The subset of `cli_processing.h`'s `Command_Line_Args` record that the
engine functions under verification read.  (`velocity_density_field` and
`ignore_latest_self_trace` are referenced by `pedestrian.c` but the snapshot of
the header predates them; they are booleans selecting the emission policy and
the self-trace subtraction, per the spec §4.4 and §4.6.) -/
structure Args where
  global_line_number : ℤ
  global_column_number : ℤ
  ks : ℚ
  kd : ℚ
  immediate_exit : Bool
  velocity_density_field : Bool
  ignore_latest_self_trace : Bool
  mu : ℚ
  fire_is_present : Bool

/-- `shared_resources.c`: `is_within_grid_lines`. -/
def is_within_grid_lines (args : Args) (line_coordinate : ℤ) : Bool :=
  0 ≤ line_coordinate && line_coordinate < args.global_line_number

/-- `shared_resources.c`: `is_within_grid_columns`. -/
def is_within_grid_columns (args : Args) (column_coordinate : ℤ) : Bool :=
  0 ≤ column_coordinate && column_coordinate < args.global_column_number

/-- `shared_resources.c`: `are_same_coordinates`. -/
def are_same_coordinates (first second : Loc) : Bool :=
  first.lin = second.lin && first.col = second.col

/-- `fire_dynamics.c`: `Location moore_modifiers[8]`. -/
def moore_modifiers : List Loc :=
  [⟨-1,-1⟩, ⟨-1,0⟩, ⟨-1,1⟩, ⟨0,-1⟩, ⟨0,1⟩, ⟨1,-1⟩, ⟨1,0⟩, ⟨1,1⟩]

/-- `exit.h`: `Location non_diagonal_modifiers[4]` (orthogonal neighborhood). -/
def non_diagonal_modifiers : List Loc :=
  [⟨-1,0⟩, ⟨0,-1⟩, ⟨0,1⟩, ⟨1,0⟩]

/-- The row-major enumeration `for i in [0,L) for j in [0,C)` of grid cells. -/
def grid_cells (L C : ℤ) : List Loc :=
  (List.range L.toNat).flatMap fun i =>
    (List.range C.toNat).map fun j => Loc.mk (Int.ofNat i) (Int.ofNat j)

/-- `shared_resources.c`: `is_cell_with_fire`. -/
def is_cell_with_fire (fire_grid : Int_Grid) (coordinates : Loc) : Bool :=
  fire_grid coordinates = FIRE_CELL

/-- The skip test of `zheng_fire_propagation`'s inner Moore loop, negated: the
neighbor `c + mm` is written only when it is inside the grid and its
obstacle-grid value is `EMPTY_CELL`. -/
def moore_write_cond (args : Args) (obstacle_grid : Int_Grid) (c mm : Loc) : Bool :=
  is_within_grid_lines args (c.lin + mm.lin) &&
  is_within_grid_columns args (c.col + mm.col) &&
  obstacle_grid (Loc.mk (c.lin + mm.lin) (c.col + mm.col)) == EMPTY_CELL

/-- The Moore-neighbor writes performed for one burning cell `c` by
`zheng_fire_propagation`'s inner `for(int mm = 0; mm < 8; mm++)` loop:
skip the neighbor unless it is inside the grid and its obstacle-grid value is
`EMPTY_CELL`, otherwise set it on fire in the scratch grid. -/
def fire_moore_writes (args : Args) (obstacle_grid : Int_Grid) (c : Loc)
    (aux : Int_Grid) : Int_Grid :=
  moore_modifiers.foldl
    (fun aux2 mm =>
      if moore_write_cond args obstacle_grid c mm
      then write_int_grid aux2 (Loc.mk (c.lin + mm.lin) (c.col + mm.col)) FIRE_CELL
      else aux2)
    aux

/-- The body of `zheng_fire_propagation`'s double loop over the grid: a cell
not on fire is skipped; a burning cell is copied into the scratch grid and its
valid Moore neighbors are set on fire there. -/
def fire_spread_step (args : Args) (obstacle_grid fire_grid : Int_Grid)
    (aux : Int_Grid) (c : Loc) : Int_Grid :=
  if is_cell_with_fire fire_grid c then
    fire_moore_writes args obstacle_grid c (write_int_grid aux c FIRE_CELL)
  else
    aux

/-- `fire_dynamics.c`: `zheng_fire_propagation`.  A scratch grid is filled with
`EMPTY_CELL`, the double loop processes every cell, and the scratch grid then
replaces the fire grid (the function returns the new fire grid). -/
def zheng_fire_propagation (args : Args) (obstacle_grid fire_grid : Int_Grid) :
    Int_Grid :=
  (grid_cells args.global_line_number args.global_column_number).foldl
    (fire_spread_step args obstacle_grid fire_grid)
    (fun _ => EMPTY_CELL)

/-- `d` is an in-bounds Moore-8 neighbor of a burning cell and is obstacle-free:
the condition under which the propagation loop ignites `d` from `c`. -/
def ignited_from (args : Args) (obstacle_grid fire_grid : Int_Grid)
    (c d : Loc) : Prop :=
  fire_grid c = FIRE_CELL ∧
  ∃ mm ∈ moore_modifiers, d = Loc.mk (c.lin + mm.lin) (c.col + mm.col) ∧
    moore_write_cond args obstacle_grid c mm = true

instance ignited_from_decidable (args : Args) (obstacle_grid fire_grid : Int_Grid)
    (c d : Loc) : Decidable (ignited_from args obstacle_grid fire_grid c d) := by
  unfold ignited_from
  infer_instance

theorem write_int_grid_apply (g : Int_Grid) (c d : Loc) (v : ℤ) :
    write_int_grid g c v d = if d = c then v else g d := rfl

theorem fire_moore_writes_char (args : Args) (obstacle_grid : Int_Grid)
    (c : Loc) (aux : Int_Grid) (d : Loc) :
    fire_moore_writes args obstacle_grid c aux d = FIRE_CELL ↔
      aux d = FIRE_CELL ∨
      (∃ mm ∈ moore_modifiers, d = Loc.mk (c.lin + mm.lin) (c.col + mm.col) ∧
        moore_write_cond args obstacle_grid c mm = true) := by
  unfold fire_moore_writes
  generalize moore_modifiers = ms
  induction ms generalizing aux with
  | nil => simp
  | cons mm ms ih =>
    rw [List.foldl_cons, ih]
    by_cases hc : moore_write_cond args obstacle_grid c mm = true
    · rw [if_pos hc]
      by_cases hd : d = Loc.mk (c.lin + mm.lin) (c.col + mm.col)
      · constructor
        · intro _
          exact Or.inr ⟨mm, List.mem_cons_self mm ms, hd, hc⟩
        · intro _
          left
          rw [write_int_grid_apply, if_pos hd]
      · have hw : write_int_grid aux (Loc.mk (c.lin + mm.lin) (c.col + mm.col))
            FIRE_CELL d = aux d := by
          rw [write_int_grid_apply, if_neg hd]
        rw [hw]
        constructor
        · rintro (h | ⟨mm2, hmm2, h⟩)
          · exact Or.inl h
          · exact Or.inr ⟨mm2, List.mem_cons_of_mem mm hmm2, h⟩
        · rintro (h | ⟨mm2, hmm2, h⟩)
          · exact Or.inl h
          · rcases List.mem_cons.mp hmm2 with rfl | hmm2
            · exact absurd h.1 hd
            · exact Or.inr ⟨mm2, hmm2, h⟩
    · rw [if_neg hc]
      constructor
      · rintro (h | ⟨mm2, hmm2, h⟩)
        · exact Or.inl h
        · exact Or.inr ⟨mm2, List.mem_cons_of_mem mm hmm2, h⟩
      · rintro (h | ⟨mm2, hmm2, h⟩)
        · exact Or.inl h
        · rcases List.mem_cons.mp hmm2 with rfl | hmm2
          · exact absurd h.2 hc
          · exact Or.inr ⟨mm2, hmm2, h⟩

theorem fire_moore_writes_mono (args : Args) (obstacle_grid : Int_Grid)
    (c : Loc) (aux : Int_Grid) (d : Loc) (h : aux d = FIRE_CELL) :
    fire_moore_writes args obstacle_grid c aux d = FIRE_CELL :=
  (fire_moore_writes_char args obstacle_grid c aux d).mpr (Or.inl h)

theorem fire_spread_step_char (args : Args) (obstacle_grid fire_grid : Int_Grid)
    (aux : Int_Grid) (c d : Loc) :
    fire_spread_step args obstacle_grid fire_grid aux c d = FIRE_CELL ↔
      aux d = FIRE_CELL ∨ (fire_grid c = FIRE_CELL ∧ d = c) ∨
      ignited_from args obstacle_grid fire_grid c d := by
  unfold fire_spread_step ignited_from
  by_cases hf : is_cell_with_fire fire_grid c = true
  · have hf' : fire_grid c = FIRE_CELL := by
      simpa [is_cell_with_fire] using hf
    rw [if_pos hf, fire_moore_writes_char]
    rw [write_int_grid_apply]
    constructor
    · rintro (h | h)
      · by_cases hd : d = c
        · exact Or.inr (Or.inl ⟨hf', hd⟩)
        · rw [if_neg hd] at h
          exact Or.inl h
      · exact Or.inr (Or.inr ⟨hf', h⟩)
    · rintro (h | ⟨_, hd⟩ | ⟨_, h⟩)
      · left
        split
        · rfl
        · exact h
      · left
        rw [if_pos hd]
      · exact Or.inr h
  · have hf' : ¬ fire_grid c = FIRE_CELL := by
      simpa [is_cell_with_fire] using hf
    rw [if_neg hf]
    simp [hf']

theorem zheng_fire_propagation_foldl_char (args : Args)
    (obstacle_grid fire_grid : Int_Grid) (cs : List Loc) (aux : Int_Grid) (d : Loc) :
    cs.foldl (fire_spread_step args obstacle_grid fire_grid) aux d = FIRE_CELL ↔
      aux d = FIRE_CELL ∨
      (∃ c ∈ cs, (fire_grid c = FIRE_CELL ∧ d = c) ∨
        ignited_from args obstacle_grid fire_grid c d) := by
  induction cs generalizing aux with
  | nil => simp
  | cons c cs ih =>
    simp only [List.foldl_cons, ih, fire_spread_step_char, List.mem_cons]
    constructor
    · rintro ((h | h) | ⟨c2, hc2, h⟩)
      · exact Or.inl h
      · exact Or.inr ⟨c, Or.inl rfl, h⟩
      · exact Or.inr ⟨c2, Or.inr hc2, h⟩
    · rintro (h | ⟨c2, hc2 | hc2, h⟩)
      · exact Or.inl (Or.inl h)
      · subst hc2
        exact Or.inl (Or.inr h)
      · exact Or.inr ⟨c2, hc2, h⟩

theorem mem_grid_cells (L C : ℤ) (d : Loc) :
    d ∈ grid_cells L C ↔ 0 ≤ d.lin ∧ d.lin < L ∧ 0 ≤ d.col ∧ d.col < C := by
  unfold grid_cells
  simp only [List.mem_flatMap, List.mem_map, List.mem_range]
  constructor
  · rintro ⟨i, hi, j, hj, rfl⟩
    exact ⟨Int.natCast_nonneg i, Int.lt_toNat.mp hi, Int.natCast_nonneg j, Int.lt_toNat.mp hj⟩
  · rintro ⟨h1, h2, h3, h4⟩
    refine ⟨d.lin.toNat, Int.lt_toNat.mpr (by rwa [Int.toNat_of_nonneg h1]),
      d.col.toNat, Int.lt_toNat.mpr (by rwa [Int.toNat_of_nonneg h3]), ?_⟩
    cases d with
    | mk dl dc =>
      simp only [Loc.mk.injEq]
      exact ⟨Int.toNat_of_nonneg h1, Int.toNat_of_nonneg h3⟩

/-- C5: `zheng_fire_propagation` replaces the fire grid with a scratch copy
holding `FIRE` exactly at the previously-burning cells and at the in-bounds
obstacle-free (`EMPTY`) Moore-8 neighbors of previously-burning cells; in
particular the fire is monotone: a burning in-bounds cell is still burning
after the call. -/
theorem zheng_fire_propagation_spec (args : Args)
    (obstacle_grid fire_grid : Int_Grid) (d : Loc) :
    ((zheng_fire_propagation args obstacle_grid fire_grid) d = FIRE_CELL ↔
      (∃ c ∈ grid_cells args.global_line_number args.global_column_number,
        (fire_grid c = FIRE_CELL ∧ d = c) ∨
        ignited_from args obstacle_grid fire_grid c d)) ∧
    (d ∈ grid_cells args.global_line_number args.global_column_number →
      fire_grid d = FIRE_CELL →
      (zheng_fire_propagation args obstacle_grid fire_grid) d = FIRE_CELL) := by
  constructor
  · unfold zheng_fire_propagation
    rw [zheng_fire_propagation_foldl_char]
    have hempty : ((fun _ => EMPTY_CELL : Int_Grid) d = FIRE_CELL) = False := by
      simp [EMPTY_CELL, FIRE_CELL]
    rw [hempty, false_or]
  · intro hmem hfire
    unfold zheng_fire_propagation
    rw [zheng_fire_propagation_foldl_char]
    exact Or.inr ⟨d, hmem, Or.inl ⟨hfire, rfl⟩⟩

/-- Closed instance of `zheng_fire_propagation_spec`: in a 3×3 grid with fire
seeded at the center and no obstacles, the monotonicity conjunct keeps the
center burning after one propagation. -/
theorem zheng_fire_propagation_spec_witness :
    (zheng_fire_propagation
      ⟨3, 3, 1, 1, false, false, false, 0, true⟩
      (fun _ => EMPTY_CELL)
      (fun c => if c = Loc.mk 1 1 then FIRE_CELL else EMPTY_CELL))
      (Loc.mk 1 1) = FIRE_CELL := by
  apply (zheng_fire_propagation_spec
      ⟨3, 3, 1, 1, false, false, false, 0, true⟩
      (fun _ => EMPTY_CELL)
      (fun c => if c = Loc.mk 1 1 then FIRE_CELL else EMPTY_CELL)
      (Loc.mk 1 1)).2
  · decide
  · decide

/-- `pedestrian.h`: `enum Pedestrian_State {LEAVING, GOT_OUT, STOPPED, MOVING, DEAD}`. -/
inductive Pedestrian_State where
  | LEAVING
  | GOT_OUT
  | STOPPED
  | MOVING
  | DEAD
deriving DecidableEq, Repr

open Pedestrian_State

/-- `pedestrian.h`: `struct pedestrian`.  The `id` field is not stored:
`add_new_pedestrian` always assigns `id = num_pedestrians` right after
appending, so a pedestrian's id is its position in the set's list plus one,
and the embedding uses the list index directly (writing `index + 1` wherever
the code reads `id`).  The unused `fast_pedestrian` flag is omitted. -/
structure Pedestrian where
  state : Pedestrian_State
  origin : Loc
  previous : Loc
  current : Loc
  target : Loc
  probabilities : Fin 3 → Fin 3 → ℚ

instance : Inhabited Pedestrian :=
  ⟨⟨MOVING, ⟨0,0⟩, ⟨0,0⟩, ⟨0,0⟩, ⟨0,0⟩, fun _ _ => 0⟩⟩

/-- `dynamic_field.c`: `increase_particle_at`. -/
def increase_particle_at (dynamic_floor_field : Double_Grid) (coordinates : Loc) :
    Double_Grid :=
  write_double_grid dynamic_floor_field coordinates
    (dynamic_floor_field coordinates + 1)

/-- The pedestrian-record effect of one iteration of
`apply_pedestrian_movement`'s loop (`pedestrian.c`, lines 379-418): `GOT_OUT`
and `STOPPED` pedestrians are skipped; a `MOVING` pedestrian that changes cell
first saves its current cell into `previous`, then `current` becomes `target`,
and reaching an `EXIT_CELL` turns the state into `GOT_OUT` (immediate exit) or
`LEAVING`; a `LEAVING` pedestrian becomes `GOT_OUT`. -/
def apply_pedestrian_movement_ped (args : Args) (exits_only_grid : Int_Grid)
    (p : Pedestrian) : Pedestrian :=
  if p.state = GOT_OUT ∨ p.state = STOPPED then
    p
  else if p.state = MOVING then
    let prev2 := if ¬(are_same_coordinates p.current p.target = true) then p.current
                 else p.previous
    let p2 := {p with previous := prev2, current := p.target}
    if exits_only_grid p2.current = EXIT_CELL then
      {p2 with state := if args.immediate_exit then GOT_OUT else LEAVING}
    else
      p2
  else if p.state = LEAVING then
    {p with state := GOT_OUT}
  else
    p

/-- The dynamic-floor-field effect of the same loop iteration: without the
velocity-density policy every pedestrian that has not left increments the
particle count of its own cell at the top of the body; with it, the increment
happens in the branch where a `MOVING` pedestrian changes cell (at the cell it
leaves) and in the `LEAVING` branch. -/
def apply_pedestrian_movement_field (args : Args) (p : Pedestrian)
    (dyn : Double_Grid) : Double_Grid :=
  let dyn1 := if p.state ≠ GOT_OUT ∧ ¬args.velocity_density_field then
                increase_particle_at dyn p.current
              else dyn
  if p.state = GOT_OUT ∨ p.state = STOPPED then
    dyn1
  else if p.state = MOVING then
    if ¬(are_same_coordinates p.current p.target = true) ∧
       args.velocity_density_field = true then
      increase_particle_at dyn1 p.current
    else
      dyn1
  else if p.state = LEAVING then
    if args.velocity_density_field then increase_particle_at dyn1 p.current else dyn1
  else
    dyn1

/-- One iteration of `apply_pedestrian_movement`'s loop, combining the
pedestrian-record effect and the dynamic-field effect. -/
def apply_pedestrian_movement_body (args : Args) (exits_only_grid : Int_Grid)
    (p : Pedestrian) (dyn : Double_Grid) : Pedestrian × Double_Grid :=
  (apply_pedestrian_movement_ped args exits_only_grid p,
   apply_pedestrian_movement_field args p dyn)

/-- `pedestrian.c`: `apply_pedestrian_movement`, iterating the loop body over
the pedestrian set in order while threading the dynamic floor field. -/
def apply_pedestrian_movement (args : Args) (exits_only_grid : Int_Grid) :
    List Pedestrian → Double_Grid → List Pedestrian × Double_Grid
  | [], dyn => ([], dyn)
  | p :: rest, dyn =>
    let r := apply_pedestrian_movement_body args exits_only_grid p dyn
    let rr := apply_pedestrian_movement args exits_only_grid rest r.2
    (r.1 :: rr.1, rr.2)

/-- `pedestrian.c`: `reset_pedestrian_state`. -/
def reset_pedestrian_state (peds : List Pedestrian) : List Pedestrian :=
  peds.map fun p =>
    if p.state ≠ GOT_OUT ∧ p.state ≠ LEAVING then {p with state := MOVING} else p

/-- Whether the loop body for pedestrian `q` increments the dynamic field at
cell `c`: with the velocity-density policy, exactly the pedestrians that
actually move plus the leaving ones emit (at their pre-move cell); otherwise
every pedestrian still in the environment emits at its cell. -/
def emits_particle_at (args : Args) (c : Loc) (q : Pedestrian) : Bool :=
  (if args.velocity_density_field then
    ((q.state == MOVING) && !(are_same_coordinates q.current q.target)) ||
      (q.state == LEAVING)
   else !(q.state == GOT_OUT)) && (q.current == c)

theorem apply_pedestrian_movement_body_fst (args : Args)
    (exits_only_grid : Int_Grid) (p : Pedestrian) (d1 d2 : Double_Grid) :
    (apply_pedestrian_movement_body args exits_only_grid p d1).1 =
    (apply_pedestrian_movement_body args exits_only_grid p d2).1 := rfl

theorem apply_pedestrian_movement_body_snd (args : Args)
    (exits_only_grid : Int_Grid) (p : Pedestrian) (dyn : Double_Grid) (c : Loc) :
    (apply_pedestrian_movement_body args exits_only_grid p dyn).2 c =
      dyn c + (if emits_particle_at args c p then 1 else 0) := by
  show apply_pedestrian_movement_field args p dyn c = _
  unfold apply_pedestrian_movement_field emits_particle_at
  unfold increase_particle_at write_double_grid
  cases hs : p.state <;>
    by_cases hv : args.velocity_density_field <;>
    by_cases hsame : are_same_coordinates p.current p.target = true <;>
    by_cases hc : c = p.current <;>
    simp [hs, hv, hsame, hc] <;>
    exact fun h => hc h.symm

theorem apply_pedestrian_movement_length (args : Args)
    (exits_only_grid : Int_Grid) (peds : List Pedestrian) (dyn : Double_Grid) :
    (apply_pedestrian_movement args exits_only_grid peds dyn).1.length =
      peds.length := by
  induction peds generalizing dyn with
  | nil => rfl
  | cons p rest ih =>
    unfold apply_pedestrian_movement
    simp only [List.length_cons]
    rw [ih]

theorem apply_pedestrian_movement_getD (args : Args)
    (exits_only_grid : Int_Grid) (peds : List Pedestrian) (dyn : Double_Grid)
    (k : ℕ) (hk : k < peds.length) :
    (apply_pedestrian_movement args exits_only_grid peds dyn).1.getD k default =
      (apply_pedestrian_movement_body args exits_only_grid
        (peds.getD k default) (fun _ => 0)).1 := by
  induction peds generalizing dyn k with
  | nil => exact absurd hk (Nat.not_lt_zero k)
  | cons p rest ih =>
    unfold apply_pedestrian_movement
    cases k with
    | zero =>
      simp only [List.getD_cons_zero]
      exact apply_pedestrian_movement_body_fst args exits_only_grid p dyn _
    | succ k =>
      simp only [List.getD_cons_succ]
      exact ih _ k (Nat.lt_of_succ_lt_succ hk)

theorem apply_pedestrian_movement_snd (args : Args)
    (exits_only_grid : Int_Grid) (peds : List Pedestrian) (dyn : Double_Grid)
    (c : Loc) :
    (apply_pedestrian_movement args exits_only_grid peds dyn).2 c =
      dyn c + peds.countP (emits_particle_at args c) := by
  induction peds generalizing dyn with
  | nil => simp [apply_pedestrian_movement]
  | cons p rest ih =>
    unfold apply_pedestrian_movement
    rw [ih, apply_pedestrian_movement_body_snd, List.countP_cons]
    push_cast
    ring

theorem countP_eq_zero_of_getD (l : List Pedestrian) (pred : Pedestrian → Bool)
    (h : ∀ j, j < l.length → pred (l.getD j default) = false) :
    l.countP pred = 0 := by
  induction l with
  | nil => rfl
  | cons a l ih =>
    rw [List.countP_cons]
    have h0 : pred a = false := h 0 (Nat.succ_pos _)
    rw [h0]
    simp only [Bool.false_eq_true, if_false, Nat.add_zero]
    exact ih fun j hj => h (j + 1) (Nat.succ_lt_succ hj)

theorem countP_eq_one_of_getD (l : List Pedestrian) (pred : Pedestrian → Bool)
    (k : ℕ) (hk : k < l.length)
    (hpos : pred (l.getD k default) = true)
    (hneg : ∀ j, j < l.length → j ≠ k → pred (l.getD j default) = false) :
    l.countP pred = 1 := by
  induction l generalizing k with
  | nil => exact absurd hk (Nat.not_lt_zero k)
  | cons a l ih =>
    rw [List.countP_cons]
    cases k with
    | zero =>
      have h0 : pred a = true := hpos
      rw [h0]
      simp only [if_true]
      have hz : l.countP pred = 0 := by
        apply countP_eq_zero_of_getD
        intro j hj
        exact hneg (j + 1) (Nat.succ_lt_succ hj) (Nat.succ_ne_zero j)
      rw [hz]
    | succ k =>
      have h0 : pred a = false := hneg 0 (Nat.succ_pos _) (Nat.zero_ne_add_one k)
      rw [h0]
      simp only [Bool.false_eq_true, if_false, Nat.add_zero]
      exact ih k (Nat.lt_of_succ_lt_succ hk) hpos
        fun j hj hjk => hneg (j + 1) (Nat.succ_lt_succ hj) fun hc =>
          hjk (Nat.succ_injective hc)

theorem apply_pedestrian_movement_ped_of_leaving (args : Args)
    (exits_only_grid : Int_Grid) (p : Pedestrian) (hs : p.state = LEAVING) :
    (apply_pedestrian_movement_ped args exits_only_grid p).state = GOT_OUT := by
  unfold apply_pedestrian_movement_ped
  rw [hs]
  simp

theorem apply_pedestrian_movement_ped_of_moving (args : Args)
    (exits_only_grid : Int_Grid) (p : Pedestrian) (hs : p.state = MOVING)
    (hsame : are_same_coordinates p.current p.target = false) :
    (apply_pedestrian_movement_ped args exits_only_grid p).previous = p.current ∧
    (apply_pedestrian_movement_ped args exits_only_grid p).current = p.target := by
  unfold apply_pedestrian_movement_ped
  rw [hs, hsame]
  simp only [reduceCtorEq, or_self, if_false, if_true, Bool.false_eq_true,
    not_false_iff]
  split_ifs <;> exact ⟨rfl, rfl⟩

theorem emits_particle_at_self (args : Args) (c : Loc) (q : Pedestrian)
    (hs : q.state = MOVING)
    (hsame : are_same_coordinates q.current q.target = false)
    (hc : q.current = c) : emits_particle_at args c q = true := by
  subst hc
  unfold emits_particle_at
  cases hv : args.velocity_density_field <;> simp [hs, hsame, hv]

theorem emits_particle_at_of_got_out (args : Args) (c : Loc) (q : Pedestrian)
    (hg : q.state = GOT_OUT) : emits_particle_at args c q = false := by
  unfold emits_particle_at
  cases hv : args.velocity_density_field <;> simp [hg, hv]

theorem emits_particle_at_of_ne (args : Args) (c : Loc) (q : Pedestrian)
    (hne : q.current ≠ c) : emits_particle_at args c q = false := by
  unfold emits_particle_at
  simp [hne]

theorem apply_pedestrian_movement_ped_of_exit (args : Args)
    (exits_only_grid : Int_Grid) (p : Pedestrian) (hs : p.state = MOVING)
    (hexit : exits_only_grid p.target = EXIT_CELL) :
    (apply_pedestrian_movement_ped args exits_only_grid p).state =
      if args.immediate_exit then GOT_OUT else LEAVING := by
  unfold apply_pedestrian_movement_ped
  rw [hs]
  simp [hexit]

/-- C7: in `apply_pedestrian_movement`, a `LEAVING` pedestrian becomes
`GOT_OUT` unconditionally; a `MOVING` pedestrian whose target differs from its
current cell saves the current cell into `previous`, moves (`current`
becomes `target`) and — when no other in-environment pedestrian shares its
cell — the dynamic field at the cell it leaves grows by exactly one particle;
and a `MOVING` pedestrian whose new current cell is an `EXIT_CELL` becomes
`GOT_OUT` under the `immediate_exit` flag and `LEAVING` otherwise. -/
theorem apply_pedestrian_movement_spec (args : Args) (exits_only_grid : Int_Grid)
    (peds : List Pedestrian) (dyn : Double_Grid) (k : ℕ) (hk : k < peds.length) :
    ((peds.getD k default).state = LEAVING →
      ((apply_pedestrian_movement args exits_only_grid peds dyn).1.getD k
        default).state = GOT_OUT) ∧
    ((peds.getD k default).state = MOVING →
      are_same_coordinates (peds.getD k default).current
        (peds.getD k default).target = false →
      ((apply_pedestrian_movement args exits_only_grid peds dyn).1.getD k
        default).previous = (peds.getD k default).current ∧
      ((apply_pedestrian_movement args exits_only_grid peds dyn).1.getD k
        default).current = (peds.getD k default).target ∧
      ((∀ j, j < peds.length → j ≠ k →
          (peds.getD j default).state = GOT_OUT ∨
          (peds.getD j default).current ≠ (peds.getD k default).current) →
        (apply_pedestrian_movement args exits_only_grid peds dyn).2
          (peds.getD k default).current =
          dyn ((peds.getD k default).current) + 1)) ∧
    ((peds.getD k default).state = MOVING →
      exits_only_grid (peds.getD k default).target = EXIT_CELL →
      ((apply_pedestrian_movement args exits_only_grid peds dyn).1.getD k
        default).state = if args.immediate_exit then GOT_OUT else LEAVING) := by
  have hbody := apply_pedestrian_movement_getD args exits_only_grid peds dyn k hk
  have hped : (apply_pedestrian_movement args exits_only_grid peds dyn).1.getD k
      default = apply_pedestrian_movement_ped args exits_only_grid
        (peds.getD k default) := hbody
  refine ⟨?_, ?_, ?_⟩
  · intro hs
    rw [hped]
    exact apply_pedestrian_movement_ped_of_leaving args exits_only_grid _ hs
  · intro hs hsame
    refine ⟨?_, ?_, ?_⟩
    · rw [hped]
      exact (apply_pedestrian_movement_ped_of_moving args exits_only_grid _ hs hsame).1
    · rw [hped]
      exact (apply_pedestrian_movement_ped_of_moving args exits_only_grid _ hs hsame).2
    · intro hdist
      rw [apply_pedestrian_movement_snd]
      have hcount : peds.countP
          (emits_particle_at args (peds.getD k default).current) = 1 := by
        apply countP_eq_one_of_getD peds _ k hk
        · exact emits_particle_at_self args _ _ hs hsame rfl
        · intro j hj hjk
          rcases hdist j hj hjk with hgo | hne
          · exact emits_particle_at_of_got_out args _ _ hgo
          · exact emits_particle_at_of_ne args _ _ hne
      rw [hcount]
      norm_num
  · intro hs hexit
    rw [hped]
    exact apply_pedestrian_movement_ped_of_exit args exits_only_grid _ hs hexit

/-- Closed instance of `apply_pedestrian_movement_spec`: a single moving
pedestrian at `(2,1)` targeting the exit cell `(2,2)` (with
`immediate_exit = false`) records `(2,1)` as previous, arrives at `(2,2)`,
leaves one particle at `(2,1)`, and turns `LEAVING`. -/
theorem apply_pedestrian_movement_spec_witness :
    (((apply_pedestrian_movement ⟨5, 5, 1, 1, false, false, false, 0, true⟩
        (write_int_grid (fun _ => EMPTY_CELL) ⟨2,2⟩ EXIT_CELL)
        [⟨MOVING, ⟨2,1⟩, ⟨2,1⟩, ⟨2,1⟩, ⟨2,2⟩, fun _ _ => 0⟩]
        (fun _ => 0)).1.getD 0 default).previous = ⟨2,1⟩) ∧
    ((apply_pedestrian_movement ⟨5, 5, 1, 1, false, false, false, 0, true⟩
        (write_int_grid (fun _ => EMPTY_CELL) ⟨2,2⟩ EXIT_CELL)
        [⟨MOVING, ⟨2,1⟩, ⟨2,1⟩, ⟨2,1⟩, ⟨2,2⟩, fun _ _ => 0⟩]
        (fun _ => 0)).2 ⟨2,1⟩ = 1) ∧
    (((apply_pedestrian_movement ⟨5, 5, 1, 1, false, false, false, 0, true⟩
        (write_int_grid (fun _ => EMPTY_CELL) ⟨2,2⟩ EXIT_CELL)
        [⟨MOVING, ⟨2,1⟩, ⟨2,1⟩, ⟨2,1⟩, ⟨2,2⟩, fun _ _ => 0⟩]
        (fun _ => 0)).1.getD 0 default).state = LEAVING) := by
  have h := apply_pedestrian_movement_spec ⟨5, 5, 1, 1, false, false, false, 0, true⟩
    (write_int_grid (fun _ => EMPTY_CELL) ⟨2,2⟩ EXIT_CELL)
    [⟨MOVING, ⟨2,1⟩, ⟨2,1⟩, ⟨2,1⟩, ⟨2,2⟩, fun _ _ => 0⟩]
    (fun _ => 0) 0 (by decide)
  have h2 := h.2.1 rfl rfl
  have h3 := h.2.2 rfl (by decide)
  have hone := h2.2.2 (fun j hj hjk => absurd (Nat.lt_one_iff.mp hj) hjk)
  exact ⟨h2.1, hone.trans (by norm_num), h3⟩

/-- C6: the step pipeline never kills anybody.  A pedestrian that has just
moved onto the burning cell `(2,2)` of the fire grid is still `MOVING`
(not `DEAD`) after the movement commit and the per-step state reset — the
code between the commit and the next step contains no transition to `DEAD`. -/
theorem pedestrian_on_fire_not_killed :
    (write_int_grid (fun _ => EMPTY_CELL) ⟨2,2⟩ FIRE_CELL) ⟨2,2⟩ = FIRE_CELL ∧
    ((reset_pedestrian_state
        (apply_pedestrian_movement ⟨5, 5, 1, 1, false, false, false, 0, true⟩
          (fun _ => EMPTY_CELL)
          [⟨MOVING, ⟨2,1⟩, ⟨2,1⟩, ⟨2,1⟩, ⟨2,2⟩, fun _ _ => 0⟩]
          (fun _ => 0)).1).getD 0 default).current = ⟨2,2⟩ ∧
    ((reset_pedestrian_state
        (apply_pedestrian_movement ⟨5, 5, 1, 1, false, false, false, 0, true⟩
          (fun _ => EMPTY_CELL)
          [⟨MOVING, ⟨2,1⟩, ⟨2,1⟩, ⟨2,1⟩, ⟨2,2⟩, fun _ _ => 0⟩]
          (fun _ => 0)).1).getD 0 default).state = MOVING ∧
    MOVING ≠ DEAD := by
  refine ⟨by decide, ?_, ?_, by decide⟩
  · rfl
  · rfl

/-- The C cast `(int) x` applied to a double: truncation toward zero. -/
def c_int_of_double (q : ℚ) : ℤ := if 0 ≤ q then ⌊q⌋ else ⌈q⌉

/-- The `dynamic_floor_field_value` local of `calculate_transition_probabilities`
(`pedestrian.c`, lines 539-555): the dynamic field of the neighborhood cell read
as an `int`, decremented once under the `ignore_latest_self_trace` flag when the
pedestrian has already left its origin and the cell is its previous cell (and
the value is positive). -/
def dynamic_field_value (args : Args) (dynamic_floor_field : Double_Grid)
    (p : Pedestrian) (cell : Loc) : ℤ :=
  let v := c_int_of_double (dynamic_floor_field cell)
  if args.ignore_latest_self_trace then
    if ¬(are_same_coordinates p.origin p.previous = true) then
      if are_same_coordinates p.previous cell = true then
        if v > 0 then v - 1 else v
      else v
    else v
  else v

/-- The neighborhood cell `(lin + (i-1), col + (j-1))` scored at table position
`(i,j)`. -/
def neighborhood_cell (p : Pedestrian) (i j : Fin 3) : Loc :=
  Loc.mk (p.current.lin + ((i : ℕ) : ℤ) - 1) (p.current.col + ((j : ℕ) : ℤ) - 1)

/-- The value which the first loop of `calculate_transition_probabilities`
(`pedestrian.c`, lines 526-571) leaves in `probabilities[i][j]`: diagonal
entries are not touched (`if(i == 1 || j == 1)` guard), out-of-bounds cells get
0, and the scored entries multiply `exp(ks·S)`, `exp(kd·D)`, the occupancy
factor (0 for an occupied non-center cell) and the obstacle factor (0 when the
static field holds the `WALL_CELL` sentinel). -/
def transition_probability_entry (expf : ℚ → ℚ) (args : Args)
    (static_floor_field dynamic_floor_field : Double_Grid)
    (pedestrian_position_grid : Int_Grid) (p : Pedestrian) (i j : Fin 3) : ℚ :=
  if i = 1 ∨ j = 1 then
    if ¬(is_within_grid_lines args (neighborhood_cell p i j).lin = true) ∨
       ¬(is_within_grid_columns args (neighborhood_cell p i j).col = true) then
      0
    else
      expf (args.ks * static_floor_field (neighborhood_cell p i j)) *
      expf (args.kd *
        ((dynamic_field_value args dynamic_floor_field p
          (neighborhood_cell p i j) : ℤ) : ℚ)) *
      (if ¬(i = 1 ∧ j = 1) then
        1 - (if pedestrian_position_grid (neighborhood_cell p i j) > 0 then 1 else 0)
       else 1) *
      (if static_floor_field (neighborhood_cell p i j) = ((WALL_CELL : ℤ) : ℚ)
       then 0 else 1)
  else
    p.probabilities i j

/-- The `normalization_value` accumulated by the first loop of
`calculate_transition_probabilities`: the sum of the scored (cross) entries. -/
def transition_normalization_value (expf : ℚ → ℚ) (args : Args)
    (static_floor_field dynamic_floor_field : Double_Grid)
    (pedestrian_position_grid : Int_Grid) (p : Pedestrian) : ℚ :=
  ∑ i : Fin 3, ∑ j : Fin 3,
    if i = 1 ∨ j = 1 then
      transition_probability_entry expf args static_floor_field
        dynamic_floor_field pedestrian_position_grid p i j
    else 0

/-- `pedestrian.c`: `calculate_transition_probabilities`.  After the first loop
fills the cross entries and accumulates `normalization_value`, the function
computes `pow(normalization_value, -1)` and multiplies every entry of the 3×3
table (diagonals included) by it.  The returned table is the pedestrian's new
`probabilities`. -/
def calculate_transition_probabilities (expf : ℚ → ℚ) (args : Args)
    (static_floor_field dynamic_floor_field : Double_Grid)
    (pedestrian_position_grid : Int_Grid) (p : Pedestrian) (i j : Fin 3) : ℚ :=
  transition_probability_entry expf args static_floor_field dynamic_floor_field
    pedestrian_position_grid p i j *
  (transition_normalization_value expf args static_floor_field
    dynamic_floor_field pedestrian_position_grid p)⁻¹

/-- `fire_field.c`: `determine_risky_cells`, parameterised by the
`fire_distance_grid` (computed elsewhere from Euclidean distances).  The first
loop marks every in-grid non-obstacle non-fire cell closer than 1.5 to the fire
as a `DANGER_CELL`; the second marks, for every obstacle at distance ≤ 3 from
the fire, its in-bounds orthogonal non-obstacle non-fire neighbors closer than
1.5 as `RISKY_CELL`. -/
def determine_risky_cells (args : Args) (obstacle_grid fire_grid : Int_Grid)
    (fire_distance_grid : Double_Grid) : Int_Grid :=
  let base : Int_Grid := fun _ => NON_RISKY_CELLS
  if ¬(args.fire_is_present = true) then base
  else
    let after_danger :=
      (grid_cells args.global_line_number args.global_column_number).foldl
        (fun g c =>
          if obstacle_grid c = IMPASSABLE_OBJECT ∨ fire_grid c = FIRE_CELL then g
          else if fire_distance_grid c < 3/2 then write_int_grid g c DANGER_CELL
          else g)
        base
    (grid_cells args.global_line_number args.global_column_number).foldl
      (fun g c =>
        if obstacle_grid c = IMPASSABLE_OBJECT ∧ fire_distance_grid c ≤ 3 then
          non_diagonal_modifiers.foldl
            (fun g2 n =>
              let cell := Loc.mk (c.lin + n.lin) (c.col + n.col)
              if ¬(is_within_grid_lines args cell.lin = true) ∨
                 ¬(is_within_grid_columns args cell.col = true) then g2
              else if obstacle_grid cell = IMPASSABLE_OBJECT ∨
                      fire_grid cell = FIRE_CELL then g2
              else if fire_distance_grid cell < 3/2 then
                write_int_grid g2 cell RISKY_CELL
              else g2)
            g
        else g)
      after_danger

theorem neighborhood_cell_center (p : Pedestrian) :
    neighborhood_cell p 1 1 = p.current := by
  unfold neighborhood_cell
  cases hc : p.current with
  | mk a b =>
    simp only [Loc.mk.injEq]
    omega

theorem transition_probability_entry_nonneg (expf : ℚ → ℚ) (args : Args)
    (static_floor_field dynamic_floor_field : Double_Grid)
    (pedestrian_position_grid : Int_Grid) (p : Pedestrian)
    (hexp : ∀ x, 0 < expf x)
    (hdiag : ∀ i j : Fin 3, ¬(i = 1 ∨ j = 1) → p.probabilities i j = 0)
    (i j : Fin 3) :
    0 ≤ transition_probability_entry expf args static_floor_field
      dynamic_floor_field pedestrian_position_grid p i j := by
  unfold transition_probability_entry
  by_cases hcross : i = 1 ∨ j = 1
  · rw [if_pos hcross]
    by_cases hoob : ¬(is_within_grid_lines args (neighborhood_cell p i j).lin
        = true) ∨
        ¬(is_within_grid_columns args (neighborhood_cell p i j).col = true)
    · rw [if_pos hoob]
    · rw [if_neg hoob]
      refine mul_nonneg (mul_nonneg (mul_nonneg (hexp _).le (hexp _).le) ?_) ?_
      · split_ifs <;> norm_num
      · split_ifs <;> norm_num
  · rw [if_neg hcross, hdiag i j hcross]

theorem transition_probability_entry_center_pos (expf : ℚ → ℚ) (args : Args)
    (static_floor_field dynamic_floor_field : Double_Grid)
    (pedestrian_position_grid : Int_Grid) (p : Pedestrian)
    (hexp : ∀ x, 0 < expf x)
    (hlin : is_within_grid_lines args p.current.lin = true)
    (hcol : is_within_grid_columns args p.current.col = true)
    (hwall : static_floor_field p.current ≠ ((WALL_CELL : ℤ) : ℚ)) :
    0 < transition_probability_entry expf args static_floor_field
      dynamic_floor_field pedestrian_position_grid p 1 1 := by
  unfold transition_probability_entry
  rw [if_pos (Or.inl rfl)]
  rw [neighborhood_cell_center]
  rw [if_neg (by push_neg; exact ⟨hlin, hcol⟩)]
  rw [if_neg (by push_neg; exact ⟨rfl, rfl⟩)]
  rw [if_neg hwall]
  have h1 := hexp (args.ks * static_floor_field p.current)
  have h2 := hexp (args.kd *
    ((dynamic_field_value args dynamic_floor_field p p.current : ℤ) : ℚ))
  nlinarith

theorem transition_normalization_value_pos (expf : ℚ → ℚ) (args : Args)
    (static_floor_field dynamic_floor_field : Double_Grid)
    (pedestrian_position_grid : Int_Grid) (p : Pedestrian)
    (hexp : ∀ x, 0 < expf x)
    (hlin : is_within_grid_lines args p.current.lin = true)
    (hcol : is_within_grid_columns args p.current.col = true)
    (hwall : static_floor_field p.current ≠ ((WALL_CELL : ℤ) : ℚ))
    (hdiag : ∀ i j : Fin 3, ¬(i = 1 ∨ j = 1) → p.probabilities i j = 0) :
    0 < transition_normalization_value expf args static_floor_field
      dynamic_floor_field pedestrian_position_grid p := by
  have hterm : ∀ i j : Fin 3, 0 ≤ (if i = 1 ∨ j = 1 then
      transition_probability_entry expf args static_floor_field
        dynamic_floor_field pedestrian_position_grid p i j else 0) := by
    intro i j
    split_ifs with h
    · exact transition_probability_entry_nonneg expf args static_floor_field
        dynamic_floor_field pedestrian_position_grid p hexp hdiag i j
    · exact le_refl 0
  have hinner : ∀ i : Fin 3, 0 ≤ ∑ j : Fin 3, (if i = 1 ∨ j = 1 then
      transition_probability_entry expf args static_floor_field
        dynamic_floor_field pedestrian_position_grid p i j else 0) :=
    fun i => Finset.sum_nonneg fun j _ => hterm i j
  have hmid : transition_probability_entry expf args static_floor_field
      dynamic_floor_field pedestrian_position_grid p 1 1 ≤
      ∑ j : Fin 3, (if (1 : Fin 3) = 1 ∨ j = 1 then
        transition_probability_entry expf args static_floor_field
          dynamic_floor_field pedestrian_position_grid p 1 j else 0) := by
    have h := Finset.single_le_sum (f := fun j : Fin 3 =>
      if (1 : Fin 3) = 1 ∨ j = 1 then
        transition_probability_entry expf args static_floor_field
          dynamic_floor_field pedestrian_position_grid p 1 j else 0)
      (fun j _ => hterm 1 j) (Finset.mem_univ (1 : Fin 3))
    simpa using h
  have houter : (∑ j : Fin 3, (if (1 : Fin 3) = 1 ∨ j = 1 then
      transition_probability_entry expf args static_floor_field
        dynamic_floor_field pedestrian_position_grid p 1 j else 0)) ≤
      transition_normalization_value expf args static_floor_field
        dynamic_floor_field pedestrian_position_grid p := by
    unfold transition_normalization_value
    exact Finset.single_le_sum (f := fun i : Fin 3 =>
        ∑ j : Fin 3, (if i = 1 ∨ j = 1 then
          transition_probability_entry expf args static_floor_field
            dynamic_floor_field pedestrian_position_grid p i j else 0))
      (fun i _ => hinner i) (Finset.mem_univ (1 : Fin 3))
  have hcpos := transition_probability_entry_center_pos expf args
    static_floor_field dynamic_floor_field pedestrian_position_grid p hexp
    hlin hcol hwall
  linarith

/-- The `double` values that `calculate_transition_probabilities`'s final
normalisation can produce under IEC 60559 arithmetic: a finite value, a signed
infinity, or NaN. -/
inductive C_Double where
  | finite (q : ℚ)
  | pos_inf
  | neg_inf
  | nan
deriving DecidableEq, Repr

/-- `pow(x, -1)` on a finite `double`: `pow(0, -1)` is `+inf` (IEC 60559,
divide-by-zero), otherwise the finite reciprocal.  `pedestrian.c` line 573
computes this unconditionally — there is no zero-total guard. -/
def c_pow_neg_one (q : ℚ) : C_Double :=
  if q = 0 then C_Double.pos_inf else C_Double.finite q⁻¹

/-- Multiplication of a finite `double` by a possibly special `double`:
`0 * inf` is NaN, a nonzero finite times an infinity is a signed infinity, and
NaN propagates. -/
def c_mul_double (q : ℚ) (x : C_Double) : C_Double :=
  match x with
  | C_Double.finite r => C_Double.finite (q * r)
  | C_Double.pos_inf =>
      if q = 0 then C_Double.nan
      else if 0 < q then C_Double.pos_inf else C_Double.neg_inf
  | C_Double.neg_inf =>
      if q = 0 then C_Double.nan
      else if 0 < q then C_Double.neg_inf else C_Double.pos_inf
  | C_Double.nan => C_Double.nan

/-- The second loop of `calculate_transition_probabilities` (`pedestrian.c`,
lines 573-581) with the `double` special values kept: every entry is
multiplied by the unconditionally computed `pow(normalization_value, -1)`.
Where the total is nonzero this agrees with the exact-rational
`calculate_transition_probabilities`; at a zero total it yields NaN entries. -/
def normalized_probability (expf : ℚ → ℚ) (args : Args)
    (static_floor_field dynamic_floor_field : Double_Grid)
    (pedestrian_position_grid : Int_Grid) (p : Pedestrian) (i j : Fin 3) :
    C_Double :=
  c_mul_double (transition_probability_entry expf args static_floor_field
    dynamic_floor_field pedestrian_position_grid p i j)
    (c_pow_neg_one (transition_normalization_value expf args static_floor_field
      dynamic_floor_field pedestrian_position_grid p))

/-- C8 (amended): at the end of `calculate_transition_probabilities` the 3×3
table sums to 1 whenever the pre-normalisation total is nonzero (given that
the untouched diagonal entries of the pedestrian's table are zero, as they are
from creation on); and the total is strictly positive — so this case always
applies — for every pedestrian standing in the grid on a non-wall cell.  The
source has no zero-total guard: `pow(normalization_value, -1)` is computed
unconditionally, so a zero total would produce `+inf` and NaN entries, not
zeros. -/
theorem calculate_transition_probabilities_sums_to_one (expf : ℚ → ℚ)
    (args : Args) (static_floor_field dynamic_floor_field : Double_Grid)
    (pedestrian_position_grid : Int_Grid) (p : Pedestrian)
    (hexp : ∀ x, 0 < expf x)
    (hdiag : ∀ i j : Fin 3, ¬(i = 1 ∨ j = 1) → p.probabilities i j = 0) :
    (transition_normalization_value expf args static_floor_field
        dynamic_floor_field pedestrian_position_grid p ≠ 0 →
      ∑ i : Fin 3, ∑ j : Fin 3, calculate_transition_probabilities expf args
        static_floor_field dynamic_floor_field pedestrian_position_grid p i j
        = 1) ∧
    (is_within_grid_lines args p.current.lin = true →
      is_within_grid_columns args p.current.col = true →
      static_floor_field p.current ≠ ((WALL_CELL : ℤ) : ℚ) →
      0 < transition_normalization_value expf args static_floor_field
        dynamic_floor_field pedestrian_position_grid p) := by
  constructor
  · intro hN
    have hsum : (∑ i : Fin 3, ∑ j : Fin 3, transition_probability_entry expf
        args static_floor_field dynamic_floor_field pedestrian_position_grid
        p i j) = transition_normalization_value expf args static_floor_field
        dynamic_floor_field pedestrian_position_grid p := by
      unfold transition_normalization_value
      refine Finset.sum_congr rfl fun i _ => Finset.sum_congr rfl fun j _ => ?_
      by_cases hij : i = 1 ∨ j = 1
      · rw [if_pos hij]
      · rw [if_neg hij]
        unfold transition_probability_entry
        rw [if_neg hij]
        exact hdiag i j hij
    unfold calculate_transition_probabilities
    have hfact : ∑ i : Fin 3, ∑ j : Fin 3, (transition_probability_entry expf
        args static_floor_field dynamic_floor_field pedestrian_position_grid
        p i j *
        (transition_normalization_value expf args static_floor_field
          dynamic_floor_field pedestrian_position_grid p)⁻¹) =
        (∑ i : Fin 3, ∑ j : Fin 3, transition_probability_entry expf args
          static_floor_field dynamic_floor_field pedestrian_position_grid
          p i j) *
        (transition_normalization_value expf args static_floor_field
          dynamic_floor_field pedestrian_position_grid p)⁻¹ := by
      rw [Finset.sum_mul]
      exact Finset.sum_congr rfl fun i _ => by rw [Finset.sum_mul]
    rw [hfact, hsum]
    exact mul_inv_cancel₀ hN
  · intro hlin hcol hwall
    exact transition_normalization_value_pos expf args static_floor_field
      dynamic_floor_field pedestrian_position_grid p hexp hlin hcol hwall hdiag

/-- Closed instance of `calculate_transition_probabilities_sums_to_one`: for a
pedestrian in the middle of an empty 5×5 grid (unit `exp`, zero fields) the
total is positive and the normalised table sums to 1. -/
theorem calculate_transition_probabilities_sums_to_one_witness :
    (∑ i : Fin 3, ∑ j : Fin 3, calculate_transition_probabilities (fun _ => 1)
      ⟨5, 5, 1, 1, false, false, false, 0, true⟩ (fun _ => 0) (fun _ => 0)
      (fun _ => 0)
      ⟨MOVING, ⟨2,2⟩, ⟨2,2⟩, ⟨2,2⟩, ⟨2,2⟩, fun _ _ => 0⟩ i j = 1) ∧
    0 < transition_normalization_value (fun _ => 1)
      ⟨5, 5, 1, 1, false, false, false, 0, true⟩ (fun _ => 0) (fun _ => 0)
      (fun _ => 0)
      ⟨MOVING, ⟨2,2⟩, ⟨2,2⟩, ⟨2,2⟩, ⟨2,2⟩, fun _ _ => 0⟩ := by
  have h := calculate_transition_probabilities_sums_to_one (fun _ => 1)
    ⟨5, 5, 1, 1, false, false, false, 0, true⟩ (fun _ => 0) (fun _ => 0)
    (fun _ => 0)
    ⟨MOVING, ⟨2,2⟩, ⟨2,2⟩, ⟨2,2⟩, ⟨2,2⟩, fun _ _ => 0⟩
    (fun x => one_pos) (fun _ _ _ => rfl)
  have hpos := h.2 (by decide) (by decide) (by norm_num [WALL_CELL])
  exact ⟨h.1 (ne_of_gt hpos), hpos⟩

/-- A 1×1 environment whose only cell carries the wall sentinel in the static
field: the pedestrian's whole cross scores 0 and the pre-normalisation total
is 0. -/
def c8_args : Args := ⟨1, 1, 1, 1, false, false, false, 0, true⟩

def c8_ped : Pedestrian := ⟨MOVING, ⟨0, 0⟩, ⟨0, 0⟩, ⟨0, 0⟩, ⟨0, 0⟩, fun _ _ => 0⟩

/-- **C8 counterexample.** With a zero pre-normalisation total the program does
not leave the probabilities at zero and does not skip the normalisation:
`pow(0, -1)` is `+inf` and the center entry becomes `0 * inf = NaN` under the
`double` semantics of the unguarded second loop, refuting the claimed
skip-normalisation behavior. -/
theorem calculate_transition_probabilities_zero_total_nan :
    transition_normalization_value (fun _ => 1) c8_args
      (fun _ => ((WALL_CELL : ℤ) : ℚ)) (fun _ => 0) (fun _ => 0) c8_ped = 0 ∧
    normalized_probability (fun _ => 1) c8_args
      (fun _ => ((WALL_CELL : ℤ) : ℚ)) (fun _ => 0) (fun _ => 0) c8_ped 1 1 =
      C_Double.nan ∧
    C_Double.nan ≠ C_Double.finite 0 := by
  have htotal : transition_normalization_value (fun _ => 1) c8_args
      (fun _ => ((WALL_CELL : ℤ) : ℚ)) (fun _ => 0) (fun _ => 0) c8_ped = 0 := by
    norm_num [transition_normalization_value, transition_probability_entry,
      neighborhood_cell, dynamic_field_value, c_int_of_double,
      is_within_grid_lines, is_within_grid_columns, are_same_coordinates,
      c8_args, c8_ped, WALL_CELL, Fin.sum_univ_three, Fin.ext_iff]
  have hentry : transition_probability_entry (fun _ => 1) c8_args
      (fun _ => ((WALL_CELL : ℤ) : ℚ)) (fun _ => 0) (fun _ => 0) c8_ped 1 1
      = 0 := by
    norm_num [transition_probability_entry, neighborhood_cell,
      dynamic_field_value, c_int_of_double, is_within_grid_lines,
      is_within_grid_columns, are_same_coordinates, c8_args, c8_ped,
      WALL_CELL, Fin.ext_iff]
  refine ⟨htotal, ?_, by decide⟩
  unfold normalized_probability c_pow_neg_one
  rw [htotal, hentry, if_pos rfl]
  unfold c_mul_double
  rw [if_pos rfl]

/-- C2 (amended): with a positive `exp`, for a `MOVING` pedestrian standing in
the grid on a non-wall cell (and with the never-written diagonal entries at
zero), the probability computed for table position `(i,j)` is zero exactly for
the diagonal positions, the out-of-grid cells, the cells whose static-field
value is the `WALL_CELL` sentinel (walls and obstacles), and the occupied
non-center cells.  In particular `FIRE` cells (static sentinel `FIRE_CELL`)
and `DANGER` cells of the risky-cells grid are *not* assigned probability
zero: neither grid is consulted. -/
theorem calculate_transition_probabilities_zero_iff (expf : ℚ → ℚ) (args : Args)
    (static_floor_field dynamic_floor_field : Double_Grid)
    (pedestrian_position_grid : Int_Grid) (p : Pedestrian)
    (hexp : ∀ x, 0 < expf x)
    (hlin : is_within_grid_lines args p.current.lin = true)
    (hcol : is_within_grid_columns args p.current.col = true)
    (hwall : static_floor_field p.current ≠ ((WALL_CELL : ℤ) : ℚ))
    (hdiag : ∀ i j : Fin 3, ¬(i = 1 ∨ j = 1) → p.probabilities i j = 0)
    (i j : Fin 3) :
    calculate_transition_probabilities expf args static_floor_field
      dynamic_floor_field pedestrian_position_grid p i j = 0 ↔
      (¬(i = 1 ∨ j = 1)) ∨
      ¬(is_within_grid_lines args (neighborhood_cell p i j).lin = true) ∨
      ¬(is_within_grid_columns args (neighborhood_cell p i j).col = true) ∨
      static_floor_field (neighborhood_cell p i j) = ((WALL_CELL : ℤ) : ℚ) ∨
      (¬(i = 1 ∧ j = 1) ∧
        pedestrian_position_grid (neighborhood_cell p i j) > 0) := by
  have hN := transition_normalization_value_pos expf args static_floor_field
    dynamic_floor_field pedestrian_position_grid p hexp hlin hcol hwall hdiag
  unfold calculate_transition_probabilities
  rw [mul_eq_zero, or_iff_left (inv_ne_zero (ne_of_gt hN))]
  unfold transition_probability_entry
  by_cases hcross : i = 1 ∨ j = 1
  · rw [if_pos hcross]
    by_cases hoob : ¬(is_within_grid_lines args (neighborhood_cell p i j).lin
        = true) ∨
        ¬(is_within_grid_columns args (neighborhood_cell p i j).col = true)
    · rw [if_pos hoob]
      constructor
      · intro _
        rcases hoob with h | h
        · exact Or.inr (Or.inl h)
        · exact Or.inr (Or.inr (Or.inl h))
      · intro _
        rfl
    · rw [if_neg hoob]
      push_neg at hoob
      have he1 : expf (args.ks *
          static_floor_field (neighborhood_cell p i j)) ≠ 0 :=
        ne_of_gt (hexp _)
      have he2 : expf (args.kd * ((dynamic_field_value args dynamic_floor_field
          p (neighborhood_cell p i j) : ℤ) : ℚ)) ≠ 0 :=
        ne_of_gt (hexp _)
      have hocc_iff : (if ¬(i = 1 ∧ j = 1) then
          1 - (if pedestrian_position_grid (neighborhood_cell p i j) > 0
               then (1:ℚ) else 0) else 1) = 0 ↔
          (¬(i = 1 ∧ j = 1) ∧
            pedestrian_position_grid (neighborhood_cell p i j) > 0) := by
        by_cases hcen : i = 1 ∧ j = 1
        · rw [if_neg (not_not_intro hcen)]
          simp [hcen]
        · rw [if_pos hcen]
          by_cases hg : pedestrian_position_grid (neighborhood_cell p i j) > 0
          · rw [if_pos hg]
            simp [hcen, hg]
          · rw [if_neg hg]
            simp [hcen, hg]
      have hwall_iff : (if static_floor_field (neighborhood_cell p i j) =
          ((WALL_CELL : ℤ) : ℚ) then (0:ℚ) else 1) = 0 ↔
          static_floor_field (neighborhood_cell p i j) =
            ((WALL_CELL : ℤ) : ℚ) := by
        split_ifs with h
        · simp [h]
        · simp [h]
      rw [mul_eq_zero, mul_eq_zero, mul_eq_zero, hocc_iff, hwall_iff]
      constructor
      · rintro (((h | h) | hocc) | hwf)
        · exact absurd h he1
        · exact absurd h he2
        · exact Or.inr (Or.inr (Or.inr (Or.inr hocc)))
        · exact Or.inr (Or.inr (Or.inr (Or.inl hwf)))
      · rintro (h | h | h | h | h)
        · exact absurd hcross h
        · exact absurd hoob.1 h
        · exact absurd hoob.2 h
        · exact Or.inr h
        · exact Or.inl (Or.inr h)
  · rw [if_neg hcross, hdiag i j hcross]
    simp [hcross]

/-- Closed instance of `calculate_transition_probabilities_zero_iff`: the
neighbor cell `(2,1)`, occupied by pedestrian 3, gets probability zero. -/
theorem calculate_transition_probabilities_zero_iff_witness :
    calculate_transition_probabilities (fun _ => 1)
      ⟨5, 5, 1, 1, false, false, false, 0, true⟩ (fun _ => 1/25) (fun _ => 0)
      (write_int_grid (fun _ => 0) ⟨2,1⟩ 3)
      ⟨MOVING, ⟨2,2⟩, ⟨2,2⟩, ⟨2,2⟩, ⟨2,2⟩, fun _ _ => 0⟩ 1 0 = 0 := by
  apply (calculate_transition_probabilities_zero_iff (fun _ => 1)
    ⟨5, 5, 1, 1, false, false, false, 0, true⟩ (fun _ => 1/25) (fun _ => 0)
    (write_int_grid (fun _ => 0) ⟨2,1⟩ 3)
    ⟨MOVING, ⟨2,2⟩, ⟨2,2⟩, ⟨2,2⟩, ⟨2,2⟩, fun _ _ => 0⟩
    (fun _ => one_pos) (by decide) (by decide) (by norm_num [WALL_CELL])
    (fun _ _ _ => rfl) 1 0).mpr
  refine Or.inr (Or.inr (Or.inr (Or.inr ⟨by decide, ?_⟩)))
  show write_int_grid (fun _ => 0) ⟨2,1⟩ 3 (neighborhood_cell _ 1 0) > 0
  decide

/-- Concrete scene refuting C2 as stated: a 5×5 grid, the pedestrian at
`(2,2)`, fire on the neighbor cell `(1,2)` (whose static-field value is the
`FIRE_CELL` sentinel, as `calculate_zheng_static_field` leaves it), and the
neighbor cell `(2,1)` — at true distance √2 < 1.5 from the fire — marked
`DANGER_CELL` in the risky-cells grid. -/
def c2_args : Args := ⟨5, 5, 1, 1, false, false, false, 0, true⟩

/-- Fire grid of the C2 scene: burning at `(1,2)`. -/
def c2_fire_grid : Int_Grid := fun c => if c = ⟨1,2⟩ then FIRE_CELL else EMPTY_CELL

/-- Risky-cells grid of the C2 scene: `DANGER_CELL` at `(2,1)`. -/
def c2_risky_grid : Int_Grid :=
  fun c => if c = ⟨2,1⟩ then DANGER_CELL else NON_RISKY_CELLS

/-- Static field of the C2 scene: the `FIRE_CELL` sentinel on the burning cell
and an ordinary normalised value elsewhere. -/
def c2_static : Double_Grid :=
  fun c => if c = ⟨1,2⟩ then ((FIRE_CELL : ℤ) : ℚ) else 1/25

/-- The pedestrian of the C2 scene, standing at `(2,2)`. -/
def c2_ped : Pedestrian := ⟨MOVING, ⟨2,2⟩, ⟨2,2⟩, ⟨2,2⟩, ⟨2,2⟩, fun _ _ => 0⟩

/-- C2 is false on the code: table position `(0,1)` scores the burning cell
`(1,2)` and position `(1,0)` scores the `DANGER` cell `(2,1)`, yet for the
concrete scene (with any positive `exp`, here the constant 1) neither
probability is zero — `calculate_transition_probabilities` consults neither
the fire grid nor the risky-cells grid. -/
theorem calculate_transition_probabilities_fire_danger_counterexample :
    c2_fire_grid ⟨1,2⟩ = FIRE_CELL ∧
    c2_risky_grid ⟨2,1⟩ = DANGER_CELL ∧
    neighborhood_cell c2_ped 0 1 = ⟨1,2⟩ ∧
    neighborhood_cell c2_ped 1 0 = ⟨2,1⟩ ∧
    ¬(∀ expf : ℚ → ℚ, (∀ x, 0 < expf x) →
      calculate_transition_probabilities expf c2_args c2_static (fun _ => 0)
        (fun _ => 0) c2_ped 0 1 = 0 ∧
      calculate_transition_probabilities expf c2_args c2_static (fun _ => 0)
        (fun _ => 0) c2_ped 1 0 = 0) := by
  refine ⟨by simp [c2_fire_grid], by simp [c2_risky_grid], by decide, by decide, ?_⟩
  intro h
  have h1 := (h (fun _ => 1) fun _ => one_pos).1
  norm_num [calculate_transition_probabilities, transition_probability_entry,
    transition_normalization_value, neighborhood_cell, dynamic_field_value,
    c_int_of_double, is_within_grid_lines, is_within_grid_columns,
    are_same_coordinates, WALL_CELL, FIRE_CELL, c2_args, c2_static, c2_ped,
    Fin.sum_univ_three, Fin.ext_iff, Loc.mk.injEq] at h1

/-- `shared_resources.c`: `euclidean_distance`, with the C library `sqrt`
passed in as `sqrtf`. -/
def euclidean_distance (sqrtf : ℚ → ℚ) (first second : Loc) : ℚ :=
  sqrtf (((first.lin - second.lin : ℤ) : ℚ)^2 + ((first.col - second.col : ℤ) : ℚ)^2)

/-- The inner loop of `calculate_zheng_static_field` (`static_field.c`, lines
117-124): starting from the fill value −1, the slot is replaced whenever it is
still −1 or the distance to the next exit cell is smaller — the minimum
distance to the listed exit cells. -/
def min_exit_distance (sqrtf : ℚ → ℚ) (exit_cell_coordinates : List Loc)
    (c : Loc) : ℚ :=
  exit_cell_coordinates.foldl
    (fun acc e =>
      if acc = -1 ∨ euclidean_distance sqrtf e c < acc then
        euclidean_distance sqrtf e c
      else acc)
    (-1)

/-- Whether a cell reaches the `1 / (distance + 1)` formula in the first loop
of `calculate_zheng_static_field` — exit cells always do, other cells only
when they carry none of the blocked-exit / impassable / fire sentinels. -/
def zheng_formula_applies (exits_only_grid obstacle_grid fire_grid : Int_Grid)
    (c : Loc) : Bool :=
  (exits_only_grid c == EXIT_CELL) ||
  (!(exits_only_grid c == BLOCKED_EXIT_CELL) &&
   !(obstacle_grid c == IMPASSABLE_OBJECT) &&
   !(fire_grid c == FIRE_CELL))

/-- The value the first loop of `calculate_zheng_static_field` leaves in the
destination grid at cell `c`: one of the three sentinels, or `1/(d+1)` for the
minimum exit distance `d`. -/
def zheng_static_pass1 (sqrtf : ℚ → ℚ)
    (exits_only_grid obstacle_grid fire_grid : Int_Grid)
    (exit_cell_coordinates : List Loc) (c : Loc) : ℚ :=
  if ¬(exits_only_grid c = EXIT_CELL) ∧ exits_only_grid c = BLOCKED_EXIT_CELL then
    ((BLOCKED_EXIT_CELL : ℤ) : ℚ)
  else if ¬(exits_only_grid c = EXIT_CELL) ∧
      obstacle_grid c = IMPASSABLE_OBJECT then
    ((IMPASSABLE_OBJECT : ℤ) : ℚ)
  else if ¬(exits_only_grid c = EXIT_CELL) ∧ fire_grid c = FIRE_CELL then
    ((FIRE_CELL : ℤ) : ℚ)
  else
    1 / (min_exit_distance sqrtf exit_cell_coordinates c + 1)

/-- The `sum_of_all_distances` accumulated by the first loop: the `1/(d+1)`
values of exactly the cells that reach the formula. -/
def zheng_static_sum (args : Args) (sqrtf : ℚ → ℚ)
    (exits_only_grid obstacle_grid fire_grid : Int_Grid)
    (exit_cell_coordinates : List Loc) : ℚ :=
  (((grid_cells args.global_line_number args.global_column_number).filter
      (zheng_formula_applies exits_only_grid obstacle_grid fire_grid)).map
    (fun c => 1 / (min_exit_distance sqrtf exit_cell_coordinates c + 1))).sum

/-- `static_field.c`: `calculate_zheng_static_field` (both loops).  The second
loop divides every cell by `sum_of_all_distances` unless the stored value is
the `IMPASSABLE_OBJECT` or `FIRE_CELL` sentinel — the `BLOCKED_EXIT_CELL`
sentinel is not in that guard and is divided along with the ordinary values. -/
def calculate_zheng_static_field (args : Args) (sqrtf : ℚ → ℚ)
    (exits_only_grid obstacle_grid fire_grid : Int_Grid)
    (exit_cell_coordinates : List Loc) : Double_Grid :=
  fun c =>
    let v := zheng_static_pass1 sqrtf exits_only_grid obstacle_grid fire_grid
      exit_cell_coordinates c
    if v = ((IMPASSABLE_OBJECT : ℤ) : ℚ) ∨ v = ((FIRE_CELL : ℤ) : ℚ) then v
    else v / zheng_static_sum args sqrtf exits_only_grid obstacle_grid
      fire_grid exit_cell_coordinates

/-- The 1×4 scene that exhibits C4's sentinel bug: an open exit at `(0,0)`, a
blocked exit at `(0,1)`, a passable cell at `(0,2)` and a wall at `(0,3)`. -/
def c4_args : Args := ⟨1, 4, 1, 1, false, false, false, 0, true⟩

/-- Exits grid of the C4 scene. -/
def c4_exits_only_grid : Int_Grid :=
  fun c => if c = ⟨0,0⟩ then EXIT_CELL
           else if c = ⟨0,1⟩ then BLOCKED_EXIT_CELL else EMPTY_CELL

/-- Obstacle grid of the C4 scene: a wall at `(0,3)`. -/
def c4_obstacle_grid : Int_Grid :=
  fun c => if c = ⟨0,3⟩ then IMPASSABLE_OBJECT else EMPTY_CELL

/-- Square root used by the C4 scene; the only argument values that occur in
the scene are 0, 1 and 4. -/
def c4_sqrtf : ℚ → ℚ :=
  fun q => if q = 0 then 0 else if q = 1 then 1 else if q = 4 then 2 else 0

/-- C4 fails on the code: in the 1×4 scene the sum over passable cells is
`S = 1/(0+1) + 1/(2+1) = 4/3`; the exit cell ends at `1/S = 3/4` and the
passable cell at `(1/3)/S = 1/4` (the claimed formula), the wall keeps its
`IMPASSABLE_OBJECT` sentinel — but the blocked-exit cell ends at
`BLOCKED_EXIT_CELL / S = -753`, not at its sentinel `-1004`: the second loop
of `calculate_zheng_static_field` divides `BLOCKED_EXIT_CELL` like an
ordinary value. -/
theorem calculate_zheng_static_field_blocked_exit_bug :
    calculate_zheng_static_field c4_args c4_sqrtf c4_exits_only_grid
      c4_obstacle_grid (fun _ => EMPTY_CELL) [⟨0,0⟩] ⟨0,0⟩ = 3/4 ∧
    calculate_zheng_static_field c4_args c4_sqrtf c4_exits_only_grid
      c4_obstacle_grid (fun _ => EMPTY_CELL) [⟨0,0⟩] ⟨0,2⟩ = 1/4 ∧
    calculate_zheng_static_field c4_args c4_sqrtf c4_exits_only_grid
      c4_obstacle_grid (fun _ => EMPTY_CELL) [⟨0,0⟩] ⟨0,3⟩ =
      ((IMPASSABLE_OBJECT : ℤ) : ℚ) ∧
    calculate_zheng_static_field c4_args c4_sqrtf c4_exits_only_grid
      c4_obstacle_grid (fun _ => EMPTY_CELL) [⟨0,0⟩] ⟨0,1⟩ ≠
      ((BLOCKED_EXIT_CELL : ℤ) : ℚ) ∧
    calculate_zheng_static_field c4_args c4_sqrtf c4_exits_only_grid
      c4_obstacle_grid (fun _ => EMPTY_CELL) [⟨0,0⟩] ⟨0,1⟩ = -753 := by
  have hcells : grid_cells 1 4 = [⟨0,0⟩, ⟨0,1⟩, ⟨0,2⟩, ⟨0,3⟩] := rfl
  refine ⟨?_, ?_, ?_, ?_, ?_⟩ <;>
    norm_num [calculate_zheng_static_field, zheng_static_pass1,
      zheng_static_sum, zheng_formula_applies, min_exit_distance,
      euclidean_distance, hcells, c4_args, c4_exits_only_grid,
      c4_obstacle_grid, c4_sqrtf, EXIT_CELL, BLOCKED_EXIT_CELL,
      IMPASSABLE_OBJECT, EMPTY_CELL, FIRE_CELL, Loc.mk.injEq]

/-- `shared_resources.c`: `is_cell_empty` — a cell is empty when no pedestrian,
obstacle, door or fire occupies it. -/
def is_cell_empty (pedestrian_position_grid obstacle_grid exits_only_grid
    fire_grid : Int_Grid) (coordinates : Loc) : Bool :=
  (pedestrian_position_grid coordinates == 0) &&
  (obstacle_grid coordinates == EMPTY_CELL) &&
  (exits_only_grid coordinates == EMPTY_CELL) &&
  (fire_grid coordinates == EMPTY_CELL)

/-- The inner `for(; column < C-1; column++)` loop of
`insert_pedestrians_at_random`: the first empty column of `row` in
`[column, C-1)`, if any.  `fuel` bounds the recursion; callers pass more fuel
than the loop can iterate. -/
def find_empty_in_row (isEmpty : Loc → Bool) (C row : ℤ) :
    ℤ → ℕ → Option ℤ
  | _, 0 => none
  | column, fuel + 1 =>
    if column < C - 1 then
      if isEmpty ⟨row, column⟩ then some column
      else find_empty_in_row isEmpty C row (column + 1) fuel
    else none

/-- The possible exits of the outer scanning loop of
`insert_pedestrians_at_random`: an empty cell was found and the pedestrian is
inserted there; the hard `return FAILURE` after a second pass; or the loop
condition `line < L-1` became false and the iteration over this pedestrian
ends with no insertion at all. -/
inductive Scan_Result where
  | found : Loc → Scan_Result
  | failure : Scan_Result
  | skipped : Scan_Result
deriving DecidableEq, Repr

/-- The outer `for(; line < L-1; line++)` loop of
`insert_pedestrians_at_random` (`pedestrian.c`, lines 74-106).  After a row
without an empty cell the scan restarts at column 1; reaching the last
interior row triggers `FAILURE` when the search has already looped, and
otherwise sets `line = 1` — after which the loop increment makes the next
scanned row `2`, as in the source.  `fuel` bounds the recursion; callers pass
more fuel than the loop can iterate. -/
def insert_scan (isEmpty : Loc → Bool) (L C : ℤ) :
    ℤ → ℤ → Bool → ℕ → Scan_Result
  | _, _, _, 0 => Scan_Result.failure
  | line, column, already_looping, fuel + 1 =>
    if line < L - 1 then
      match find_empty_in_row isEmpty C line column (C.toNat + 1) with
      | some col => Scan_Result.found ⟨line, col⟩
      | none =>
        if line + 1 = L - 1 then
          if already_looping then Scan_Result.failure
          else insert_scan isEmpty L C (1 + 1) 1 true fuel
        else insert_scan isEmpty L C (line + 1) 1 already_looping fuel
    else Scan_Result.skipped

/-- The pedestrian-set state threaded through random insertion: the position
grid and the number of pedestrians (`add_new_pedestrian` assigns each new
pedestrian the id `num_pedestrians + 1`). -/
structure Insert_State where
  pedestrian_position_grid : Int_Grid
  num_pedestrians : ℕ

/-- `pedestrian.c`: `insert_pedestrians_at_random`, with the random draws of
`rand_within_limits(1, L-1)` / `rand_within_limits(1, C-1)` passed in as the
`draws` list (one `(line, column)` pair per pedestrian).  `none` models
`FAILURE`; on success the final position grid and pedestrian count are
returned. -/
def insert_pedestrians_at_random (args : Args)
    (obstacle_grid exits_only_grid fire_grid : Int_Grid)
    (draws : List (ℤ × ℤ)) : Option Insert_State :=
  if draws.length = 0 then none
  else
    draws.foldl
      (fun acc draw =>
        match acc with
        | none => none
        | some st =>
          match insert_scan
              (is_cell_empty st.pedestrian_position_grid obstacle_grid
                exits_only_grid fire_grid)
              args.global_line_number args.global_column_number
              draw.1 draw.2 false
              ((2 * args.global_line_number).toNat + 2) with
          | Scan_Result.found c =>
            some ⟨write_int_grid st.pedestrian_position_grid c
                    ((st.num_pedestrians : ℤ) + 1),
                  st.num_pedestrians + 1⟩
          | Scan_Result.failure => none
          | Scan_Result.skipped => some st)
      (some ⟨fun _ => 0, 0⟩)

/-- Obstacle grid of the C9 scene: a 4×4 environment whose interior cells
`(1,2)`, `(2,1)` and `(2,2)` are blocked, leaving `(1,1)` as the only empty
interior cell. -/
def c9_obstacle_grid : Int_Grid :=
  fun c => if c = ⟨1,2⟩ ∨ c = ⟨2,1⟩ ∨ c = ⟨2,2⟩ then IMPASSABLE_OBJECT
           else EMPTY_CELL

/-- C9 fails on the code: the 4×4 environment still has the empty interior
cell `(1,1)`, yet with the draw `(2,2)` the insertion returns `FAILURE` — the
wrap-around sets `line = 1` and the loop increment immediately moves to row 2,
so row 1 is never rescanned. -/
theorem insert_pedestrians_at_random_wrap_bug :
    is_cell_empty (fun _ => 0) c9_obstacle_grid (fun _ => EMPTY_CELL)
      (fun _ => EMPTY_CELL) ⟨1,1⟩ = true ∧
    insert_pedestrians_at_random ⟨4, 4, 1, 1, false, false, false, 0, true⟩
      c9_obstacle_grid (fun _ => EMPTY_CELL) (fun _ => EMPTY_CELL)
      [(2, 2)] = none := by
  constructor
  · decide
  · rfl

/-- `pedestrian.c`: `struct cell_conflict`.  The fixed `pedestrian_ids[8]`
array together with `num_pedestrians` is embedded as a list (claim C10 bounds
its length by 8); `pedestrian_allowed` is filled by
`solve_pedestrian_conflicts`. -/
structure cell_conflict where
  pedestrian_ids : List ℤ
  pedestrian_allowed : ℤ
deriving DecidableEq, Repr

instance : Inhabited cell_conflict := ⟨⟨[], 0⟩⟩

/-- The state threaded through `identify_pedestrian_conflicts`: the scratch
`conflict_grid` (zero-initialised by `allocate_integer_grid`) and the growing
`conflict_list`. -/
structure Conflict_Scan_State where
  conflict_grid : Int_Grid
  conflict_list : List cell_conflict

/-- One iteration of `identify_pedestrian_conflicts`'s loop (`pedestrian.c`,
lines 196-247) for the pedestrian at index `i` (whose id is `i + 1`, as
`add_new_pedestrian` assigns ids): non-`MOVING` pedestrians are skipped; a
zero grid slot receives the id; a positive slot spawns a two-id conflict and
the slot becomes `-(conflict_number)`; a negative slot appends the id to the
existing conflict it indexes. -/
def identify_step (peds : List Pedestrian) (st : Conflict_Scan_State) (i : ℕ) :
    Conflict_Scan_State :=
  let p := peds.getD i default
  if p.state ≠ MOVING then st
  else
    let v := st.conflict_grid p.target
    if v = 0 then
      ⟨write_int_grid st.conflict_grid p.target ((i : ℤ) + 1), st.conflict_list⟩
    else if v > 0 then
      ⟨write_int_grid st.conflict_grid p.target
         (-((st.conflict_list.length : ℤ) + 1)),
       st.conflict_list ++ [⟨[v, (i : ℤ) + 1], 0⟩]⟩
    else
      let k := (-v - 1).toNat
      ⟨st.conflict_grid,
       st.conflict_list.set k
         ⟨(st.conflict_list.getD k default).pedestrian_ids ++ [(i : ℤ) + 1],
          (st.conflict_list.getD k default).pedestrian_allowed⟩⟩

/-- The scan of `identify_pedestrian_conflicts` over the first `P` pedestrians
of the set, starting from the freshly zeroed conflict grid. -/
def identify_upto (peds : List Pedestrian) (P : ℕ) : Conflict_Scan_State :=
  (List.range P).foldl (identify_step peds) ⟨fun _ => 0, []⟩

/-- `pedestrian.c`: `identify_pedestrian_conflicts` — the conflict list built
by scanning the whole pedestrian set. -/
def identify_pedestrian_conflicts (peds : List Pedestrian) : List cell_conflict :=
  (identify_upto peds peds.length).conflict_list

/-- The loop of `roulette_wheel_selection` (`shared_resources.c`, lines
126-137): zero weights are skipped; each nonzero weight updates `index` and
accumulates into `current_sum`; the first index whose running sum (plus the
tolerance) reaches the draw is returned, and `index` — the last nonzero
index, or the initial −1 — is returned on fall-through. -/
def roulette_wheel_selection_go (draw_value : ℚ) :
    List ℚ → ℕ → ℚ → ℤ → ℤ
  | [], _, _, index => index
  | p :: rest, i, current_sum, index =>
    if p = 0 then roulette_wheel_selection_go draw_value rest (i + 1) current_sum index
    else
      if draw_value ≤ current_sum + p + TOLERANCE then (i : ℤ)
      else roulette_wheel_selection_go draw_value rest (i + 1) (current_sum + p) (i : ℤ)

/-- `shared_resources.c`: `roulette_wheel_selection`, with the internal
`rand_within_limits(0, total_probability)` draw passed in as `draw_value`. -/
def roulette_wheel_selection (probability_list : List ℚ) (draw_value : ℚ) : ℤ :=
  roulette_wheel_selection_go draw_value probability_list 0 0 (-1)

/-- One iteration of `solve_pedestrian_conflicts`'s outer loop (`pedestrian.c`,
lines 275-290): a winner position is drawn by the roulette over the static
all-ones weight array (truncated to `num_pedestrians` entries) and every other
participant — located at list index `id − 1` — is set to `STOPPED`;
`pedestrian_allowed` records the winner's id. -/
def solve_conflict (peds : List Pedestrian) (conflict : cell_conflict)
    (draw : ℚ) : List Pedestrian × cell_conflict :=
  let random_result := roulette_wheel_selection
    (List.replicate conflict.pedestrian_ids.length 1) draw
  ((conflict.pedestrian_ids.enum.foldl
      (fun acc pidx =>
        if ¬((pidx.1 : ℤ) = random_result) then
          acc.set (pidx.2 - 1).toNat
            {(acc.getD (pidx.2 - 1).toNat default) with state := STOPPED}
        else acc)
      peds),
   {conflict with pedestrian_allowed :=
      conflict.pedestrian_ids.getD random_result.toNat 0})

/-- `pedestrian.c`: `solve_pedestrian_conflicts`, threading the pedestrian set
through the conflicts in order; the roulette draw for conflict `k` is
`draws k`. -/
def solve_pedestrian_conflicts (pedestrian_conflicts : List cell_conflict)
    (peds : List Pedestrian) (draws : ℕ → ℚ) :
    List Pedestrian × List cell_conflict :=
  pedestrian_conflicts.enum.foldl
    (fun acc kc =>
      let r := solve_conflict acc.1 kc.2 (draws kc.1)
      (r.1, acc.2 ++ [r.2]))
    (peds, [])

/-- The row-major order in which `transition_selection`'s double loop visits
the 3×3 table. -/
def fin3_pairs : List (Fin 3 × Fin 3) :=
  [(0,0), (0,1), (0,2), (1,0), (1,1), (1,2), (2,0), (2,1), (2,2)]

/-- The loop of `transition_selection` (`pedestrian.c`, lines 600-613):
zero-probability entries are skipped, each visited entry accumulates into the
running total, and the first entry whose total (plus tolerance) reaches the
draw yields the corresponding neighborhood cell; on fall-through the
pedestrian's current cell is returned. -/
def transition_selection_go (p : Pedestrian) (draw : ℚ) :
    List (Fin 3 × Fin 3) → ℚ → Loc
  | [], _ => p.current
  | ij :: rest, total =>
    if p.probabilities ij.1 ij.2 = 0 then transition_selection_go p draw rest total
    else
      if draw ≤ total + p.probabilities ij.1 ij.2 + TOLERANCE then
        Loc.mk (p.current.lin + ((ij.1 : ℕ) : ℤ) - 1)
               (p.current.col + ((ij.2 : ℕ) : ℤ) - 1)
      else transition_selection_go p draw rest (total + p.probabilities ij.1 ij.2)

/-- `pedestrian.c`: `transition_selection`, with the
`rand_within_limits(0,1)` draw passed in. -/
def transition_selection (p : Pedestrian) (draw : ℚ) : Loc :=
  transition_selection_go p draw fin3_pairs 0

/-- `pedestrian.c`: `evaluate_pedestrians_movements` — every `MOVING`
pedestrian gets fresh transition probabilities and a destination cell drawn
from them (the draw for the pedestrian at index `i` is `draws i`); other
pedestrians are untouched. -/
def evaluate_pedestrians_movements (expf : ℚ → ℚ) (args : Args)
    (static_floor_field dynamic_floor_field : Double_Grid)
    (pedestrian_position_grid : Int_Grid) (peds : List Pedestrian)
    (draws : ℕ → ℚ) : List Pedestrian :=
  peds.mapIdx fun i p =>
    if p.state = MOVING then
      let prob2 := calculate_transition_probabilities expf args
        static_floor_field dynamic_floor_field pedestrian_position_grid p
      let p2 := {p with probabilities := prob2}
      {p2 with target := transition_selection p2 (draws i)}
    else p

/-- The pedestrian at index `i` is `MOVING` and targets `c` — it will claim
cell `c` during the conflict scan. -/
def targets_cell (peds : List Pedestrian) (c : Loc) (i : ℕ) : Bool :=
  ((peds.getD i default).state == MOVING) && ((peds.getD i default).target == c)

/-- The claimants of cell `c` among the first `P` pedestrians, in scan order. -/
def claimants_upto (peds : List Pedestrian) (P : ℕ) (c : Loc) : List ℕ :=
  (List.range P).filter (targets_cell peds c)

/-- The ids (`index + 1`) of the claimants of `c` among the first `P`
pedestrians, in scan order. -/
def claimant_ids (peds : List Pedestrian) (P : ℕ) (c : Loc) : List ℤ :=
  List.map (fun a : ℕ => (a : ℤ) + 1) (claimants_upto peds P c)

theorem claimants_upto_succ (peds : List Pedestrian) (P : ℕ) (c : Loc) :
    claimants_upto peds (P + 1) c =
      claimants_upto peds P c ++
        (if targets_cell peds c P then [P] else []) := by
  unfold claimants_upto
  rw [List.range_succ, List.filter_append]
  congr 1
  cases h : targets_cell peds c P <;> simp [List.filter, h]

theorem claimants_upto_length_mono (peds : List Pedestrian) (P : ℕ) (c : Loc) :
    (claimants_upto peds P c).length ≤ (claimants_upto peds (P + 1) c).length := by
  rw [claimants_upto_succ]
  simp

/-- The invariant maintained by `identify_pedestrian_conflicts`'s scan over
the first `P` pedestrians: the conflict grid holds 0 where no claimant has
appeared yet, the claimant's id where exactly one has, and `-(k+1)` — with
conflict record `k` holding exactly the claimant ids in scan order — where at
least two have; every record belongs to some such cell, and distinct cells
never share a negative grid value. -/
def conflict_scan_invariant (peds : List Pedestrian) (P : ℕ)
    (st : Conflict_Scan_State) : Prop :=
  (∀ c : Loc,
    (claimants_upto peds P c = [] → st.conflict_grid c = 0) ∧
    (∀ i : ℕ, claimants_upto peds P c = [i] →
      st.conflict_grid c = (i : ℤ) + 1) ∧
    (2 ≤ (claimants_upto peds P c).length →
      ∃ k : ℕ, st.conflict_grid c = -((k : ℤ) + 1) ∧
        k < st.conflict_list.length ∧
        (st.conflict_list.getD k default).pedestrian_ids =
          claimant_ids peds P c)) ∧
  (∀ k : ℕ, k < st.conflict_list.length →
    ∃ c : Loc, st.conflict_grid c = -((k : ℤ) + 1) ∧
      2 ≤ (claimants_upto peds P c).length) ∧
  (∀ c d : Loc, st.conflict_grid c < 0 →
    st.conflict_grid c = st.conflict_grid d → c = d)

theorem invariant_grid_of_nil (peds : List Pedestrian) (P : ℕ)
    (st : Conflict_Scan_State) (h : conflict_scan_invariant peds P st)
    (c : Loc) (hg : st.conflict_grid c = 0) :
    claimants_upto peds P c = [] := by
  cases hl : claimants_upto peds P c with
  | nil => rfl
  | cons i rest =>
    cases rest with
    | nil =>
      have := (h.1 c).2.1 i hl
      rw [hg] at this
      omega
    | cons j rest2 =>
      have hlen : 2 ≤ (claimants_upto peds P c).length := by
        rw [hl]
        simp
      obtain ⟨k, hk, _, _⟩ := (h.1 c).2.2 hlen
      rw [hg] at hk
      omega

theorem invariant_grid_of_pos (peds : List Pedestrian) (P : ℕ)
    (st : Conflict_Scan_State) (h : conflict_scan_invariant peds P st)
    (c : Loc) (hg : st.conflict_grid c > 0) :
    ∃ i : ℕ, claimants_upto peds P c = [i] ∧
      st.conflict_grid c = (i : ℤ) + 1 := by
  cases hl : claimants_upto peds P c with
  | nil =>
    have := (h.1 c).1 hl
    omega
  | cons i rest =>
    cases rest with
    | nil => exact ⟨i, rfl, (h.1 c).2.1 i hl⟩
    | cons j rest2 =>
      have hlen : 2 ≤ (claimants_upto peds P c).length := by
        rw [hl]
        simp
      obtain ⟨k, hk, _, _⟩ := (h.1 c).2.2 hlen
      omega

theorem invariant_grid_of_neg (peds : List Pedestrian) (P : ℕ)
    (st : Conflict_Scan_State) (h : conflict_scan_invariant peds P st)
    (c : Loc) (hg : st.conflict_grid c < 0) :
    2 ≤ (claimants_upto peds P c).length := by
  cases hl : claimants_upto peds P c with
  | nil =>
    have := (h.1 c).1 hl
    omega
  | cons i rest =>
    cases rest with
    | nil =>
      have := (h.1 c).2.1 i hl
      omega
    | cons j rest2 =>
      simp

theorem claimant_ids_succ_of_target (peds : List Pedestrian) (P : ℕ) (c : Loc)
    (h : targets_cell peds c P = true) :
    claimants_upto peds (P + 1) c = claimants_upto peds P c ++ [P] := by
  rw [claimants_upto_succ, h]
  simp

theorem claimants_succ_of_not_target (peds : List Pedestrian) (P : ℕ) (c : Loc)
    (h : targets_cell peds c P = false) :
    claimants_upto peds (P + 1) c = claimants_upto peds P c := by
  rw [claimants_upto_succ, h]
  simp

theorem claimant_ids_succ_append (peds : List Pedestrian) (P : ℕ) (c : Loc)
    (h : targets_cell peds c P = true) :
    claimant_ids peds (P + 1) c = claimant_ids peds P c ++ [(P : ℤ) + 1] := by
  unfold claimant_ids
  rw [claimant_ids_succ_of_target peds P c h]
  simp

theorem conflict_scan_invariant_congr (peds : List Pedestrian) (P1 P2 : ℕ)
    (st : Conflict_Scan_State) (h : conflict_scan_invariant peds P1 st)
    (hcl : ∀ c, claimants_upto peds P2 c = claimants_upto peds P1 c) :
    conflict_scan_invariant peds P2 st := by
  obtain ⟨h1, h2, h3⟩ := h
  refine ⟨fun c => ⟨?_, ?_, ?_⟩, fun k hk => ?_, h3⟩
  · rw [hcl c]
    exact (h1 c).1
  · rw [hcl c]
    exact (h1 c).2.1
  · rw [hcl c]
    unfold claimant_ids
    rw [hcl c]
    exact (h1 c).2.2
  · obtain ⟨c, hc1, hc2⟩ := h2 k hk
    exact ⟨c, hc1, by rw [hcl c]; exact hc2⟩

theorem identify_inv_step_zero (peds : List Pedestrian) (P : ℕ)
    (st : Conflict_Scan_State) (hinv : conflict_scan_invariant peds P st)
    (t : Loc)
    (htc : ∀ c, targets_cell peds c P = true ↔ c = t)
    (hv : st.conflict_grid t = 0) :
    conflict_scan_invariant peds (P + 1)
      ⟨write_int_grid st.conflict_grid t ((P : ℤ) + 1), st.conflict_list⟩ := by
  have hclt : claimants_upto peds P t = [] :=
    invariant_grid_of_nil peds P st hinv t hv
  have hsucc_t : claimants_upto peds (P + 1) t = [P] := by
    rw [claimant_ids_succ_of_target peds P t ((htc t).mpr rfl), hclt]
    rfl
  have hsucc_ne : ∀ c, c ≠ t →
      claimants_upto peds (P + 1) c = claimants_upto peds P c := by
    intro c hc
    refine claimants_succ_of_not_target peds P c ?_
    cases hx : targets_cell peds c P
    · rfl
    · exact absurd ((htc c).mp hx) hc
  have hgrid : ∀ c, (write_int_grid st.conflict_grid t ((P : ℤ) + 1)) c =
      if c = t then (P : ℤ) + 1 else st.conflict_grid c := fun c => rfl
  obtain ⟨ih1, ih2, ih3⟩ := hinv
  refine ⟨fun c => ⟨?_, ?_, ?_⟩, fun k hk => ?_, fun c d hc hcd => ?_⟩
  · intro h
    by_cases hct : c = t
    · rw [hct, hsucc_t] at h
      exact absurd h (by simp)
    · show write_int_grid st.conflict_grid t ((P : ℤ) + 1) c = 0
      rw [hgrid c, if_neg hct]
      rw [hsucc_ne c hct] at h
      exact (ih1 c).1 h
  · intro i h
    show write_int_grid st.conflict_grid t ((P : ℤ) + 1) c = (i : ℤ) + 1
    by_cases hct : c = t
    · rw [hct, hsucc_t] at h
      have : P = i := by
        injection h
      rw [hgrid c, if_pos hct, this]
    · rw [hgrid c, if_neg hct]
      rw [hsucc_ne c hct] at h
      exact (ih1 c).2.1 i h
  · intro h
    by_cases hct : c = t
    · rw [hct, hsucc_t] at h
      simp at h
    · rw [hsucc_ne c hct] at h
      obtain ⟨k, hk1, hk2, hk3⟩ := (ih1 c).2.2 h
      refine ⟨k, ?_, hk2, ?_⟩
      · show write_int_grid st.conflict_grid t ((P : ℤ) + 1) c = _
        rw [hgrid c, if_neg hct]
        exact hk1
      · show (st.conflict_list.getD k default).pedestrian_ids =
          claimant_ids peds (P + 1) c
        unfold claimant_ids
        rw [hsucc_ne c hct]
        exact hk3
  · obtain ⟨c, hc1, hc2⟩ := ih2 k hk
    have hct : c ≠ t := fun h => by
      rw [h, hv] at hc1
      omega
    refine ⟨c, ?_, ?_⟩
    · show write_int_grid st.conflict_grid t ((P : ℤ) + 1) c = _
      rw [hgrid c, if_neg hct]
      exact hc1
    · rw [hsucc_ne c hct]
      exact hc2
  · replace hc : write_int_grid st.conflict_grid t ((P : ℤ) + 1) c < 0 := hc
    replace hcd : write_int_grid st.conflict_grid t ((P : ℤ) + 1) c =
      write_int_grid st.conflict_grid t ((P : ℤ) + 1) d := hcd
    rw [hgrid c] at hc hcd
    rw [hgrid d] at hcd
    by_cases hct : c = t
    · rw [if_pos hct] at hc
      omega
    · rw [if_neg hct] at hc hcd
      by_cases hdt : d = t
      · rw [if_pos hdt] at hcd
        omega
      · rw [if_neg hdt] at hcd
        exact ih3 c d hc hcd

theorem identify_inv_step_pos (peds : List Pedestrian) (P : ℕ)
    (st : Conflict_Scan_State) (hinv : conflict_scan_invariant peds P st)
    (t : Loc)
    (htc : ∀ c, targets_cell peds c P = true ↔ c = t)
    (hv : st.conflict_grid t > 0) :
    conflict_scan_invariant peds (P + 1)
      ⟨write_int_grid st.conflict_grid t (-((st.conflict_list.length : ℤ) + 1)),
       st.conflict_list ++ [⟨[st.conflict_grid t, (P : ℤ) + 1], 0⟩]⟩ := by
  obtain ⟨i0, hcl, hval⟩ := invariant_grid_of_pos peds P st hinv t hv
  have hsucc_t : claimants_upto peds (P + 1) t = [i0, P] := by
    rw [claimant_ids_succ_of_target peds P t ((htc t).mpr rfl), hcl]
    rfl
  have hsucc_ne : ∀ c, c ≠ t →
      claimants_upto peds (P + 1) c = claimants_upto peds P c := by
    intro c hc
    refine claimants_succ_of_not_target peds P c ?_
    cases hx : targets_cell peds c P
    · rfl
    · exact absurd ((htc c).mp hx) hc
  have hgrid : ∀ c, (write_int_grid st.conflict_grid t
      (-((st.conflict_list.length : ℤ) + 1))) c =
      if c = t then -((st.conflict_list.length : ℤ) + 1)
      else st.conflict_grid c := fun c => rfl
  have hneg_k : ∀ d, st.conflict_grid d < 0 → d ≠ t →
      ∃ kd : ℕ, st.conflict_grid d = -((kd : ℤ) + 1) ∧
        kd < st.conflict_list.length := by
    intro d hd _
    obtain ⟨kd, h1, h2, _⟩ :=
      (hinv.1 d).2.2 (invariant_grid_of_neg peds P st hinv d hd)
    exact ⟨kd, h1, h2⟩
  obtain ⟨ih1, ih2, ih3⟩ := hinv
  refine ⟨fun c => ⟨?_, ?_, ?_⟩, fun k hk => ?_, fun c d hc hcd => ?_⟩
  · intro h
    by_cases hct : c = t
    · rw [hct, hsucc_t] at h
      exact absurd h (by simp)
    · show write_int_grid st.conflict_grid t _ c = 0
      rw [hgrid c, if_neg hct]
      rw [hsucc_ne c hct] at h
      exact (ih1 c).1 h
  · intro i h
    by_cases hct : c = t
    · rw [hct, hsucc_t] at h
      exact absurd h (by simp)
    · show write_int_grid st.conflict_grid t _ c = (i : ℤ) + 1
      rw [hgrid c, if_neg hct]
      rw [hsucc_ne c hct] at h
      exact (ih1 c).2.1 i h
  · intro h
    by_cases hct : c = t
    · refine ⟨st.conflict_list.length, ?_, ?_, ?_⟩
      · show write_int_grid st.conflict_grid t _ c = _
        rw [hgrid c, if_pos hct]
      · simp
      · show ((st.conflict_list ++
            [(⟨[st.conflict_grid t, (P : ℤ) + 1], 0⟩ : cell_conflict)]).getD
            st.conflict_list.length default).pedestrian_ids =
            claimant_ids peds (P + 1) c
        rw [List.getD_eq_getElem?_getD,
          List.getElem?_append_right (le_refl _)]
        rw [hct, claimant_ids_succ_append peds P t ((htc t).mpr rfl)]
        unfold claimant_ids
        rw [hcl, hval]
        simp
    · rw [hsucc_ne c hct] at h
      obtain ⟨k, hk1, hk2, hk3⟩ := (ih1 c).2.2 h
      refine ⟨k, ?_, ?_, ?_⟩
      · show write_int_grid st.conflict_grid t _ c = _
        rw [hgrid c, if_neg hct]
        exact hk1
      · simp
        omega
      · show ((st.conflict_list ++
            [(⟨[st.conflict_grid t, (P : ℤ) + 1], 0⟩ : cell_conflict)]).getD k
            default).pedestrian_ids = claimant_ids peds (P + 1) c
        rw [List.getD_append _ _ _ _ hk2]
        unfold claimant_ids
        rw [hsucc_ne c hct]
        exact hk3
  · by_cases hklen : k < st.conflict_list.length
    · obtain ⟨c, hc1, hc2⟩ := ih2 k hklen
      have hct : c ≠ t := fun h => by
        rw [h] at hc1
        omega
      refine ⟨c, ?_, ?_⟩
      · show write_int_grid st.conflict_grid t _ c = _
        rw [hgrid c, if_neg hct]
        exact hc1
      · calc 2 ≤ (claimants_upto peds P c).length := hc2
          _ ≤ (claimants_upto peds (P + 1) c).length :=
            claimants_upto_length_mono peds P c
    · have hkeq : k = st.conflict_list.length := by
        simp at hk
        omega
      refine ⟨t, ?_, ?_⟩
      · show write_int_grid st.conflict_grid t _ t = _
        rw [hgrid t, if_pos rfl, hkeq]
      · rw [hsucc_t]
        simp
  · replace hc : write_int_grid st.conflict_grid t
        (-((st.conflict_list.length : ℤ) + 1)) c < 0 := hc
    replace hcd : write_int_grid st.conflict_grid t
        (-((st.conflict_list.length : ℤ) + 1)) c =
        write_int_grid st.conflict_grid t
        (-((st.conflict_list.length : ℤ) + 1)) d := hcd
    rw [hgrid c] at hc hcd
    rw [hgrid d] at hcd
    by_cases hct : c = t
    · by_cases hdt : d = t
      · rw [hct, hdt]
      · rw [if_pos hct] at hcd
        rw [if_neg hdt] at hcd
        have hdneg : st.conflict_grid d < 0 := by omega
        obtain ⟨kd, h1, h2⟩ := hneg_k d hdneg hdt
        omega
    · rw [if_neg hct] at hc hcd
      by_cases hdt : d = t
      · rw [if_pos hdt] at hcd
        obtain ⟨kc, h1, h2⟩ := hneg_k c hc hct
        omega
      · rw [if_neg hdt] at hcd
        exact ih3 c d hc hcd

theorem identify_inv_step_neg (peds : List Pedestrian) (P : ℕ)
    (st : Conflict_Scan_State) (hinv : conflict_scan_invariant peds P st)
    (t : Loc)
    (htc : ∀ c, targets_cell peds c P = true ↔ c = t)
    (hv : st.conflict_grid t < 0) :
    conflict_scan_invariant peds (P + 1)
      ⟨st.conflict_grid,
       st.conflict_list.set ((-(st.conflict_grid t) - 1).toNat)
         ⟨(st.conflict_list.getD ((-(st.conflict_grid t) - 1).toNat)
             default).pedestrian_ids ++ [(P : ℤ) + 1],
          (st.conflict_list.getD ((-(st.conflict_grid t) - 1).toNat)
             default).pedestrian_allowed⟩⟩ := by
  have hlen2 := invariant_grid_of_neg peds P st hinv t hv
  obtain ⟨k0, hval, hk0, hids⟩ := (hinv.1 t).2.2 hlen2
  have hk' : (-(st.conflict_grid t) - 1).toNat = k0 := by omega
  rw [hk']
  have hsucc_t : claimants_upto peds (P + 1) t =
      claimants_upto peds P t ++ [P] :=
    claimant_ids_succ_of_target peds P t ((htc t).mpr rfl)
  have hsucc_ne : ∀ c, c ≠ t →
      claimants_upto peds (P + 1) c = claimants_upto peds P c := by
    intro c hc
    refine claimants_succ_of_not_target peds P c ?_
    cases hx : targets_cell peds c P
    · rfl
    · exact absurd ((htc c).mp hx) hc
  obtain ⟨ih1, ih2, ih3⟩ := hinv
  refine ⟨fun c => ⟨?_, ?_, ?_⟩, fun k hk => ?_, fun c d hc hcd => ?_⟩
  · intro h
    by_cases hct : c = t
    · rw [hct, hsucc_t] at h
      exact absurd h (by simp)
    · rw [hsucc_ne c hct] at h
      exact (ih1 c).1 h
  · intro i h
    by_cases hct : c = t
    · rw [hct, hsucc_t] at h
      have : (claimants_upto peds P t ++ [P]).length = 1 := by
        rw [h]
        rfl
      rw [List.length_append] at this
      omega
    · rw [hsucc_ne c hct] at h
      exact (ih1 c).2.1 i h
  · intro h
    by_cases hct : c = t
    · refine ⟨k0, by rw [hct]; exact hval, ?_, ?_⟩
      · rw [List.length_set]
        exact hk0
      · show ((st.conflict_list.set k0 _).getD k0 default).pedestrian_ids =
          claimant_ids peds (P + 1) c
        rw [List.getD_eq_getElem?_getD, List.getElem?_set_self (by omega)]
        rw [hct, claimant_ids_succ_append peds P t ((htc t).mpr rfl), ← hids]
        rfl
    · rw [hsucc_ne c hct] at h
      obtain ⟨k, hk1, hk2, hk3⟩ := (ih1 c).2.2 h
      have hkne : k ≠ k0 := by
        intro hkk
        rw [hkk] at hk1
        rw [← hval] at hk1
        exact hct (ih3 c t (by omega) hk1)
      refine ⟨k, hk1, ?_, ?_⟩
      · rw [List.length_set]
        exact hk2
      · show ((st.conflict_list.set k0 _).getD k default).pedestrian_ids =
          claimant_ids peds (P + 1) c
        rw [List.getD_eq_getElem?_getD,
          List.getElem?_set_ne (fun h2 => hkne h2.symm),
          ← List.getD_eq_getElem?_getD]
        unfold claimant_ids
        rw [hsucc_ne c hct]
        exact hk3
  · rw [List.length_set] at hk
    obtain ⟨c, hc1, hc2⟩ := ih2 k hk
    refine ⟨c, hc1, ?_⟩
    calc 2 ≤ (claimants_upto peds P c).length := hc2
      _ ≤ (claimants_upto peds (P + 1) c).length :=
        claimants_upto_length_mono peds P c
  · exact ih3 c d hc hcd

theorem conflict_scan_invariant_holds (peds : List Pedestrian) (P : ℕ) :
    conflict_scan_invariant peds P (identify_upto peds P) := by
  induction P with
  | zero =>
    refine ⟨fun c => ⟨fun _ => rfl, fun i h => ?_, fun h => ?_⟩,
      fun k hk => ?_, fun c d hc _ => ?_⟩
    · simp [claimants_upto] at h
    · simp [claimants_upto] at h
    · simp [identify_upto] at hk
    · exact absurd hc (by simp [identify_upto])
  | succ P ih =>
    have hstep : identify_upto peds (P + 1) =
        identify_step peds (identify_upto peds P) P := by
      unfold identify_upto
      rw [List.range_succ, List.foldl_append, List.foldl_cons, List.foldl_nil]
    rw [hstep]
    by_cases hmov : (peds.getD P default).state = MOVING
    · have htc : ∀ c, targets_cell peds c P = true ↔
          c = (peds.getD P default).target := by
        intro c
        unfold targets_cell
        rw [Bool.and_eq_true, beq_iff_eq, beq_iff_eq]
        exact ⟨fun h => h.2.symm, fun h => ⟨hmov, h.symm⟩⟩
      set st := identify_upto peds P with hst
      set t := (peds.getD P default).target with ht
      by_cases hv0 : st.conflict_grid t = 0
      · have hse : identify_step peds st P =
            ⟨write_int_grid st.conflict_grid t ((P : ℤ) + 1),
             st.conflict_list⟩ := by
          unfold identify_step
          rw [if_neg (not_ne_iff.mpr hmov), ← ht, if_pos hv0]
        rw [hse]
        exact identify_inv_step_zero peds P st ih t htc hv0
      · by_cases hvpos : st.conflict_grid t > 0
        · have hse : identify_step peds st P =
              ⟨write_int_grid st.conflict_grid t
                (-((st.conflict_list.length : ℤ) + 1)),
               st.conflict_list ++
                 [⟨[st.conflict_grid t, (P : ℤ) + 1], 0⟩]⟩ := by
            unfold identify_step
            rw [if_neg (not_ne_iff.mpr hmov), ← ht, if_neg hv0, if_pos hvpos]
          rw [hse]
          exact identify_inv_step_pos peds P st ih t htc hvpos
        · have hvneg : st.conflict_grid t < 0 := by omega
          have hse : identify_step peds st P =
              ⟨st.conflict_grid,
               st.conflict_list.set ((-(st.conflict_grid t) - 1).toNat)
                 ⟨(st.conflict_list.getD ((-(st.conflict_grid t) - 1).toNat)
                     default).pedestrian_ids ++ [(P : ℤ) + 1],
                  (st.conflict_list.getD ((-(st.conflict_grid t) - 1).toNat)
                     default).pedestrian_allowed⟩⟩ := by
            unfold identify_step
            rw [if_neg (not_ne_iff.mpr hmov), ← ht, if_neg hv0, if_neg hvpos]
          rw [hse]
          exact identify_inv_step_neg peds P st ih t htc hvneg
    · have hse : identify_step peds (identify_upto peds P) P =
          identify_upto peds P := by
        unfold identify_step
        rw [if_pos hmov]
      rw [hse]
      refine conflict_scan_invariant_congr peds P (P + 1) _ ih fun c => ?_
      refine claimants_succ_of_not_target peds P c ?_
      cases hx : targets_cell peds c P
      · rfl
      · unfold targets_cell at hx
        rw [Bool.and_eq_true, beq_iff_eq, beq_iff_eq] at hx
        exact absurd hx.1 hmov

/-- One iteration of `solve_pedestrian_conflicts`'s inner loop (`pedestrian.c`,
lines 283-289): participant `pidx.2` at enumeration position `pidx.1` is set to
`STOPPED` unless its position equals the roulette result `r`. -/
def stop_step (r : ℤ) (acc : List Pedestrian) (pidx : ℕ × ℤ) : List Pedestrian :=
  if ¬((pidx.1 : ℤ) = r) then
    acc.set (pidx.2 - 1).toNat
      {(acc.getD (pidx.2 - 1).toNat default) with state := STOPPED}
  else acc

theorem solve_conflict_fst (peds : List Pedestrian) (conflict : cell_conflict)
    (draw : ℚ) :
    (solve_conflict peds conflict draw).1 =
      conflict.pedestrian_ids.enum.foldl
        (stop_step (roulette_wheel_selection
          (List.replicate conflict.pedestrian_ids.length 1) draw)) peds := rfl

theorem stop_step_length (r : ℤ) (acc : List Pedestrian) (qid : ℕ × ℤ) :
    (stop_step r acc qid).length = acc.length := by
  unfold stop_step
  by_cases hq : ((qid.1 : ℤ) = r)
  · rw [if_neg (not_not_intro hq)]
  · rw [if_pos hq, List.length_set]

theorem stop_fold_length (r : ℤ) (l : List (ℕ × ℤ)) (peds : List Pedestrian) :
    (l.foldl (stop_step r) peds).length = peds.length := by
  induction l generalizing peds with
  | nil => rfl
  | cons qid rest ih =>
    rw [List.foldl_cons, ih, stop_step_length]

theorem stop_step_getD_ne (r : ℤ) (acc : List Pedestrian) (qid : ℕ × ℤ) (j : ℕ)
    (h : (qid.2 - 1).toNat ≠ j) :
    (stop_step r acc qid).getD j default = acc.getD j default := by
  unfold stop_step
  by_cases hq : ((qid.1 : ℤ) = r)
  · rw [if_neg (not_not_intro hq)]
  · rw [if_pos hq, List.getD_eq_getElem?_getD, List.getElem?_set_ne h,
      ← List.getD_eq_getElem?_getD]

theorem stop_step_shape (r : ℤ) (acc : List Pedestrian) (qid : ℕ × ℤ) (j : ℕ)
    (hj : j < acc.length) :
    (stop_step r acc qid).getD j default = acc.getD j default ∨
    (stop_step r acc qid).getD j default =
      {acc.getD j default with state := STOPPED} := by
  by_cases hq : ((qid.1 : ℤ) = r)
  · left
    unfold stop_step
    rw [if_neg (not_not_intro hq)]
  · by_cases ht : (qid.2 - 1).toNat = j
    · right
      unfold stop_step
      rw [if_pos hq, ht, List.getD_eq_getElem?_getD,
        List.getElem?_set_self hj]
      rfl
    · left
      exact stop_step_getD_ne r acc qid j ht

theorem stop_fold_shape (r : ℤ) (l : List (ℕ × ℤ)) (peds : List Pedestrian)
    (j : ℕ) (hj : j < peds.length) :
    (l.foldl (stop_step r) peds).getD j default = peds.getD j default ∨
    (l.foldl (stop_step r) peds).getD j default =
      {peds.getD j default with state := STOPPED} := by
  induction l generalizing peds hj with
  | nil => exact Or.inl rfl
  | cons qid rest ih =>
    rw [List.foldl_cons]
    have hlen : j < (stop_step r peds qid).length := by
      rw [stop_step_length]
      exact hj
    rcases ih (stop_step r peds qid) hlen with h | h <;>
      rcases stop_step_shape r peds qid j hj with h2 | h2 <;>
        rw [h, h2]
    · exact Or.inl rfl
    · exact Or.inr rfl
    · exact Or.inr rfl
    · exact Or.inr rfl

theorem stop_fold_stopped (r : ℤ) (l : List (ℕ × ℤ)) (peds : List Pedestrian)
    (j : ℕ) (hj : j < peds.length)
    (h : ∃ qid ∈ l, ¬((qid.1 : ℤ) = r) ∧ (qid.2 - 1).toNat = j) :
    ((l.foldl (stop_step r) peds).getD j default).state = STOPPED := by
  induction l generalizing peds hj with
  | nil => simp at h
  | cons qid rest ih =>
    rw [List.foldl_cons]
    have hlen : j < (stop_step r peds qid).length := by
      rw [stop_step_length]
      exact hj
    obtain ⟨qid2, hmem, hq, ht⟩ := h
    rcases List.mem_cons.mp hmem with heq | hmem2
    · subst heq
      have hstopped : ((stop_step r peds qid2).getD j default).state = STOPPED := by
        unfold stop_step
        rw [if_pos hq, ht, List.getD_eq_getElem?_getD,
          List.getElem?_set_self hj]
        rfl
      rcases stop_fold_shape r rest (stop_step r peds qid2) j hlen with h2 | h2
      · rw [h2]
        exact hstopped
      · rw [h2]
    · exact ih (stop_step r peds qid) hlen ⟨qid2, hmem2, hq, ht⟩

theorem stop_fold_untouched (r : ℤ) (l : List (ℕ × ℤ)) (peds : List Pedestrian)
    (j : ℕ) (h : ∀ qid ∈ l, (qid.2 - 1).toNat = j → (qid.1 : ℤ) = r) :
    (l.foldl (stop_step r) peds).getD j default = peds.getD j default := by
  induction l generalizing peds with
  | nil => rfl
  | cons qid rest ih =>
    rw [List.foldl_cons]
    have h1 : (stop_step r peds qid).getD j default = peds.getD j default := by
      by_cases ht : (qid.2 - 1).toNat = j
      · unfold stop_step
        rw [if_neg (not_not_intro (h qid (List.mem_cons_self qid rest) ht))]
      · exact stop_step_getD_ne r peds qid j ht
    rw [ih (stop_step r peds qid) (fun q hq htq => h q (List.mem_cons_of_mem qid hq) htq),
      h1]

/-- One iteration of `solve_pedestrian_conflicts`'s outer loop, acting on the
pedestrian set only. -/
def solve_peds_step (draws : ℕ → ℚ) (ps : List Pedestrian)
    (kc : ℕ × cell_conflict) : List Pedestrian :=
  (solve_conflict ps kc.2 (draws kc.1)).1

theorem solve_fold_pair_fst (draws : ℕ → ℚ) (l : List (ℕ × cell_conflict))
    (peds : List Pedestrian) (cs : List cell_conflict) :
    (l.foldl (fun acc kc =>
        let r := solve_conflict acc.1 kc.2 (draws kc.1)
        (r.1, acc.2 ++ [r.2])) (peds, cs)).1 =
      l.foldl (solve_peds_step draws) peds := by
  induction l generalizing peds cs with
  | nil => rfl
  | cons kc rest ih =>
    rw [List.foldl_cons, List.foldl_cons]
    exact ih _ _

theorem solve_pedestrian_conflicts_fst (conflicts : List cell_conflict)
    (peds : List Pedestrian) (draws : ℕ → ℚ) :
    (solve_pedestrian_conflicts conflicts peds draws).1 =
      conflicts.enum.foldl (solve_peds_step draws) peds := by
  unfold solve_pedestrian_conflicts
  exact solve_fold_pair_fst draws conflicts.enum peds []

theorem solve_peds_step_length (draws : ℕ → ℚ) (ps : List Pedestrian)
    (kc : ℕ × cell_conflict) :
    (solve_peds_step draws ps kc).length = ps.length := by
  unfold solve_peds_step
  rw [solve_conflict_fst, stop_fold_length]

theorem solve_fold_length (draws : ℕ → ℚ) (l : List (ℕ × cell_conflict))
    (peds : List Pedestrian) :
    (l.foldl (solve_peds_step draws) peds).length = peds.length := by
  induction l generalizing peds with
  | nil => rfl
  | cons kc rest ih =>
    rw [List.foldl_cons, ih, solve_peds_step_length]

theorem solve_peds_step_shape (draws : ℕ → ℚ) (ps : List Pedestrian)
    (kc : ℕ × cell_conflict) (j : ℕ) (hj : j < ps.length) :
    (solve_peds_step draws ps kc).getD j default = ps.getD j default ∨
    (solve_peds_step draws ps kc).getD j default =
      {ps.getD j default with state := STOPPED} := by
  unfold solve_peds_step
  rw [solve_conflict_fst]
  exact stop_fold_shape _ _ ps j hj

theorem solve_fold_shape (draws : ℕ → ℚ) (l : List (ℕ × cell_conflict))
    (peds : List Pedestrian) (j : ℕ) (hj : j < peds.length) :
    (l.foldl (solve_peds_step draws) peds).getD j default = peds.getD j default ∨
    (l.foldl (solve_peds_step draws) peds).getD j default =
      {peds.getD j default with state := STOPPED} := by
  induction l generalizing peds hj with
  | nil => exact Or.inl rfl
  | cons kc rest ih =>
    rw [List.foldl_cons]
    have hlen : j < (solve_peds_step draws peds kc).length := by
      rw [solve_peds_step_length]
      exact hj
    rcases ih (solve_peds_step draws peds kc) hlen with h | h <;>
      rcases solve_peds_step_shape draws peds kc j hj with h2 | h2 <;>
        rw [h, h2]
    · exact Or.inl rfl
    · exact Or.inr rfl
    · exact Or.inr rfl
    · exact Or.inr rfl

theorem solve_fold_stopped (draws : ℕ → ℚ) (l : List (ℕ × cell_conflict))
    (peds : List Pedestrian) (j : ℕ) (hj : j < peds.length)
    (h : ∃ kc ∈ l, ∃ qid ∈ kc.2.pedestrian_ids.enum,
      ¬((qid.1 : ℤ) = roulette_wheel_selection
          (List.replicate kc.2.pedestrian_ids.length 1) (draws kc.1)) ∧
      (qid.2 - 1).toNat = j) :
    ((l.foldl (solve_peds_step draws) peds).getD j default).state = STOPPED := by
  induction l generalizing peds hj with
  | nil => simp at h
  | cons kc rest ih =>
    rw [List.foldl_cons]
    have hlen : j < (solve_peds_step draws peds kc).length := by
      rw [solve_peds_step_length]
      exact hj
    obtain ⟨kc2, hmem, hrest⟩ := h
    rcases List.mem_cons.mp hmem with heq | hmem2
    · subst heq
      have hstopped : ((solve_peds_step draws peds kc2).getD j default).state =
          STOPPED := by
        unfold solve_peds_step
        rw [solve_conflict_fst]
        exact stop_fold_stopped _ _ peds j hj hrest
      rcases solve_fold_shape draws rest (solve_peds_step draws peds kc2) j hlen
          with h2 | h2
      · rw [h2]
        exact hstopped
      · rw [h2]
    · exact ih (solve_peds_step draws peds kc) hlen ⟨kc2, hmem2, hrest⟩

theorem solve_fold_untouched (draws : ℕ → ℚ) (l : List (ℕ × cell_conflict))
    (peds : List Pedestrian) (j : ℕ)
    (h : ∀ kc ∈ l, ∀ qid ∈ kc.2.pedestrian_ids.enum,
      (qid.2 - 1).toNat = j → (qid.1 : ℤ) = roulette_wheel_selection
        (List.replicate kc.2.pedestrian_ids.length 1) (draws kc.1)) :
    (l.foldl (solve_peds_step draws) peds).getD j default =
      peds.getD j default := by
  induction l generalizing peds with
  | nil => rfl
  | cons kc rest ih =>
    rw [List.foldl_cons]
    have h1 : (solve_peds_step draws peds kc).getD j default =
        peds.getD j default := by
      unfold solve_peds_step
      rw [solve_conflict_fst]
      exact stop_fold_untouched _ _ peds j (h kc (List.mem_cons_self kc rest))
    rw [ih (solve_peds_step draws peds kc)
      (fun q hq => h q (List.mem_cons_of_mem kc hq)), h1]

theorem mem_claimants_upto (peds : List Pedestrian) (P : ℕ) (c : Loc) (i : ℕ) :
    i ∈ claimants_upto peds P c ↔ i < P ∧ targets_cell peds c i = true := by
  unfold claimants_upto
  rw [List.mem_filter, List.mem_range]

theorem claimants_upto_nodup (peds : List Pedestrian) (P : ℕ) (c : Loc) :
    (claimants_upto peds P c).Nodup :=
  (List.nodup_range P).filter _

theorem targets_cell_unique (peds : List Pedestrian) (c d : Loc) (i : ℕ)
    (hc : targets_cell peds c i = true) (hd : targets_cell peds d i = true) :
    c = d := by
  unfold targets_cell at hc hd
  rw [Bool.and_eq_true, beq_iff_eq, beq_iff_eq] at hc hd
  rw [← hc.2, ← hd.2]

theorem claimant_ids_length (peds : List Pedestrian) (P : ℕ) (c : Loc) :
    (claimant_ids peds P c).length = (claimants_upto peds P c).length := by
  unfold claimant_ids
  rw [List.length_map]

theorem claimant_ids_getElem (peds : List Pedestrian) (P : ℕ) (c : Loc) (q : ℕ)
    (hq : q < (claimants_upto peds P c).length) :
    (claimant_ids peds P c).getD q 0 =
      ((claimants_upto peds P c).getD q 0 : ℤ) + 1 := by
  unfold claimant_ids
  rw [List.getD_eq_getElem _ _ (by rw [List.length_map]; exact hq),
    List.getD_eq_getElem _ _ hq, List.getElem_map]

/-- The characterization of the conflict records produced by the scan: record
`k` belongs to a unique cell `c` whose conflict-grid value is `-(k+1)`, with at
least two claimants, and holds exactly their ids in scan order. -/
theorem identify_record_char (peds : List Pedestrian) (k : ℕ)
    (hk : k < (identify_pedestrian_conflicts peds).length) :
    ∃ c : Loc,
      (identify_upto peds peds.length).conflict_grid c = -((k : ℤ) + 1) ∧
      2 ≤ (claimants_upto peds peds.length c).length ∧
      ((identify_pedestrian_conflicts peds).getD k default).pedestrian_ids =
        claimant_ids peds peds.length c := by
  have hinv := conflict_scan_invariant_holds peds peds.length
  obtain ⟨c, hc1, hc2⟩ := hinv.2.1 k hk
  obtain ⟨k2, h1, h2, h3⟩ := (hinv.1 c).2.2 hc2
  have hkk : k2 = k := by
    rw [hc1] at h1
    omega
  subst hkk
  exact ⟨c, hc1, hc2, h3⟩

/-- The cell of a record with at least two claimants: the converse direction of
the scan invariant, at the full pedestrian set. -/
theorem identify_cell_record (peds : List Pedestrian) (c : Loc)
    (h2 : 2 ≤ (claimants_upto peds peds.length c).length) :
    ∃ k : ℕ,
      (identify_upto peds peds.length).conflict_grid c = -((k : ℤ) + 1) ∧
      k < (identify_pedestrian_conflicts peds).length ∧
      ((identify_pedestrian_conflicts peds).getD k default).pedestrian_ids =
        claimant_ids peds peds.length c :=
  ((conflict_scan_invariant_holds peds peds.length).1 c).2.2 h2

/-- The pedestrian set after the `identify_pedestrian_conflicts` /
`solve_pedestrian_conflicts` pair of `run_simulations`'s step loop. -/
def resolved_pedestrians (peds : List Pedestrian) (draws : ℕ → ℚ) :
    List Pedestrian :=
  (solve_pedestrian_conflicts (identify_pedestrian_conflicts peds) peds draws).1

theorem resolved_pedestrians_shape (peds : List Pedestrian) (draws : ℕ → ℚ)
    (j : ℕ) (hj : j < peds.length) :
    (resolved_pedestrians peds draws).getD j default = peds.getD j default ∨
    (resolved_pedestrians peds draws).getD j default =
      {peds.getD j default with state := STOPPED} := by
  unfold resolved_pedestrians
  rw [solve_pedestrian_conflicts_fst]
  exact solve_fold_shape draws _ peds j hj

/-- A claimant of `c` standing at a non-winning position of `c`'s conflict
record ends the resolution `STOPPED`. -/
theorem resolved_loser_stopped (peds : List Pedestrian) (draws : ℕ → ℚ)
    (c : Loc) (i : ℕ) (hi : i ∈ claimants_upto peds peds.length c)
    (q : ℕ) (hq : q < (claimants_upto peds peds.length c).length)
    (hqi : (claimants_upto peds peds.length c).getD q 0 = i)
    (k : ℕ) (hk : k < (identify_pedestrian_conflicts peds).length)
    (hids : ((identify_pedestrian_conflicts peds).getD k default).pedestrian_ids =
      claimant_ids peds peds.length c)
    (hr : ¬((q : ℤ) = roulette_wheel_selection
      (List.replicate ((identify_pedestrian_conflicts peds).getD k
        default).pedestrian_ids.length 1) (draws k))) :
    ((resolved_pedestrians peds draws).getD i default).state = STOPPED := by
  have hilen : i < peds.length := ((mem_claimants_upto peds _ c i).mp hi).1
  unfold resolved_pedestrians
  rw [solve_pedestrian_conflicts_fst]
  apply solve_fold_stopped draws _ peds i hilen
  have hkl : k < (identify_pedestrian_conflicts peds).enum.length := by
    rw [List.enum_length]
    exact hk
  refine ⟨(identify_pedestrian_conflicts peds).enum[k], List.getElem_mem hkl, ?_⟩
  rw [List.getElem_enum]
  have hconf : (identify_pedestrian_conflicts peds)[k] =
      (identify_pedestrian_conflicts peds).getD k default :=
    (List.getD_eq_getElem _ _ hk).symm
  rw [hconf]
  have hql : q < ((identify_pedestrian_conflicts peds).getD k
      default).pedestrian_ids.length := by
    rw [hids, claimant_ids_length]
    exact hq
  have hqel : q < ((identify_pedestrian_conflicts peds).getD k
      default).pedestrian_ids.enum.length := by
    rw [List.enum_length]
    exact hql
  refine ⟨((identify_pedestrian_conflicts peds).getD k
      default).pedestrian_ids.enum[q], List.getElem_mem hqel, ?_, ?_⟩
  · rw [List.getElem_enum]
    exact hr
  · rw [List.getElem_enum]
    show ((((identify_pedestrian_conflicts peds).getD k
      default).pedestrian_ids[q]) - 1).toNat = i
    rw [← List.getD_eq_getElem _ 0 hql, hids,
      claimant_ids_getElem peds peds.length c q hq, hqi]
    omega

theorem two_le_length_of_mem_ne {α : Type} (l : List α) (a b : α)
    (ha : a ∈ l) (hb : b ∈ l) (hne : a ≠ b) : 2 ≤ l.length := by
  cases l with
  | nil => simp at ha
  | cons x rest =>
    cases rest with
    | nil =>
      simp at ha hb
      rw [ha, hb] at hne
      exact absurd rfl hne
    | cons y rest2 =>
      simp [List.length_cons]

/-- **C1.** After one step's conflict resolution (`identify_pedestrian_conflicts`
followed by `solve_pedestrian_conflicts`), for every grid cell `c` at most one
pedestrian in state `MOVING` has `target = c`, and every pedestrian that
targeted `c` but is no longer `MOVING` has been set to state `STOPPED`. -/
theorem conflict_resolution_spec (peds : List Pedestrian) (draws : ℕ → ℚ)
    (c : Loc) :
    (∀ i j : ℕ, i < peds.length → j < peds.length →
      ((resolved_pedestrians peds draws).getD i default).state = MOVING →
      ((resolved_pedestrians peds draws).getD i default).target = c →
      ((resolved_pedestrians peds draws).getD j default).state = MOVING →
      ((resolved_pedestrians peds draws).getD j default).target = c →
      i = j) ∧
    (∀ i : ℕ, i < peds.length → targets_cell peds c i = true →
      ((resolved_pedestrians peds draws).getD i default).state ≠ MOVING →
      ((resolved_pedestrians peds draws).getD i default).state = STOPPED) := by
  constructor
  · intro i j hi hj hmi hti hmj htj
    by_contra hne
    have hsi : (resolved_pedestrians peds draws).getD i default =
        peds.getD i default := by
      rcases resolved_pedestrians_shape peds draws i hi with h | h
      · exact h
      · rw [h] at hmi
        exact Pedestrian_State.noConfusion hmi
    have hsj : (resolved_pedestrians peds draws).getD j default =
        peds.getD j default := by
      rcases resolved_pedestrians_shape peds draws j hj with h | h
      · exact h
      · rw [h] at hmj
        exact Pedestrian_State.noConfusion hmj
    rw [hsi] at hmi hti
    rw [hsj] at hmj htj
    have hti2 : targets_cell peds c i = true := by
      unfold targets_cell
      rw [Bool.and_eq_true, beq_iff_eq, beq_iff_eq]
      exact ⟨hmi, hti⟩
    have htj2 : targets_cell peds c j = true := by
      unfold targets_cell
      rw [Bool.and_eq_true, beq_iff_eq, beq_iff_eq]
      exact ⟨hmj, htj⟩
    have hic : i ∈ claimants_upto peds peds.length c :=
      (mem_claimants_upto peds peds.length c i).mpr ⟨hi, hti2⟩
    have hjc : j ∈ claimants_upto peds peds.length c :=
      (mem_claimants_upto peds peds.length c j).mpr ⟨hj, htj2⟩
    have h2 : 2 ≤ (claimants_upto peds peds.length c).length :=
      two_le_length_of_mem_ne _ i j hic hjc hne
    obtain ⟨k, _, hk, hids⟩ := identify_cell_record peds c h2
    obtain ⟨qi, hqi_lt, hqi⟩ := List.mem_iff_getElem.mp hic
    obtain ⟨qj, hqj_lt, hqj⟩ := List.mem_iff_getElem.mp hjc
    by_cases hri : (qi : ℤ) = roulette_wheel_selection
        (List.replicate ((identify_pedestrian_conflicts peds).getD k
          default).pedestrian_ids.length 1) (draws k)
    · have hrj : ¬((qj : ℤ) = roulette_wheel_selection
          (List.replicate ((identify_pedestrian_conflicts peds).getD k
            default).pedestrian_ids.length 1) (draws k)) := by
        intro hrj
        apply hne
        have hq : qi = qj := by omega
        rw [← hqi, ← hqj]
        congr 1
      have hstop := resolved_loser_stopped peds draws c j hjc qj hqj_lt
        (by rw [List.getD_eq_getElem _ 0 hqj_lt]; exact hqj) k hk hids hrj
      rw [hsj, hmj] at hstop
      exact Pedestrian_State.noConfusion hstop
    · have hstop := resolved_loser_stopped peds draws c i hic qi hqi_lt
        (by rw [List.getD_eq_getElem _ 0 hqi_lt]; exact hqi) k hk hids hri
      rw [hsi, hmi] at hstop
      exact Pedestrian_State.noConfusion hstop
  · intro i hi ht hnm
    rcases resolved_pedestrians_shape peds draws i hi with h | h
    · exfalso
      apply hnm
      rw [h]
      unfold targets_cell at ht
      rw [Bool.and_eq_true, beq_iff_eq, beq_iff_eq] at ht
      exact ht.1
    · rw [h]

/-- A two-pedestrian scene: both `MOVING`, standing at `(1,1)` and `(1,3)`,
both targeting the cell `(1,2)` between them. -/
def c3_ped0 : Pedestrian := ⟨MOVING, ⟨1, 1⟩, ⟨1, 1⟩, ⟨1, 1⟩, ⟨1, 2⟩, fun _ _ => 0⟩

def c3_ped1 : Pedestrian := ⟨MOVING, ⟨1, 3⟩, ⟨1, 3⟩, ⟨1, 3⟩, ⟨1, 2⟩, fun _ _ => 0⟩

def c3_peds : List Pedestrian := [c3_ped0, c3_ped1]

def c3_draws : ℕ → ℚ := fun _ => 0

theorem c3_identify : identify_pedestrian_conflicts c3_peds = [⟨[1, 2], 0⟩] := by
  decide

theorem c3_roulette :
    roulette_wheel_selection (List.replicate 2 1) (c3_draws 0) = 0 := by
  norm_num [c3_draws, roulette_wheel_selection, roulette_wheel_selection_go,
    TOLERANCE, List.replicate]

theorem c3_eval : resolved_pedestrians c3_peds c3_draws =
    [c3_ped0, {c3_ped1 with state := STOPPED}] := by
  unfold resolved_pedestrians
  rw [c3_identify, solve_pedestrian_conflicts_fst]
  show solve_peds_step c3_draws c3_peds (0, ⟨[1, 2], 0⟩) = _
  unfold solve_peds_step
  rw [solve_conflict_fst]
  show List.foldl (stop_step (roulette_wheel_selection (List.replicate 2 1)
    (c3_draws 0))) c3_peds [(0, 1), (1, 2)] = _
  rw [c3_roulette]
  show stop_step 0 (stop_step 0 c3_peds (0, 1)) (1, 2) = _
  unfold stop_step
  norm_num
  rfl

/-- **C1 witness.** At the concrete two-pedestrian conflict over cell `(1,2)`,
pedestrian 1 targeted the cell, is no longer `MOVING` after resolution, and has
indeed been set to `STOPPED`. -/
theorem conflict_resolution_spec_witness :
    targets_cell c3_peds ⟨1, 2⟩ 1 = true ∧
    ((resolved_pedestrians c3_peds c3_draws).getD 1 default).state = STOPPED :=
  ⟨by decide,
   (conflict_resolution_spec c3_peds c3_draws ⟨1, 2⟩).2 1 (by decide) (by decide)
     (by rw [c3_eval]; decide)⟩

/-- **C3 counterexample.** The claimed friction step does not exist: in the
two-pedestrian conflict over cell `(1,2)` — a conflict record with two
participants — the outcome in which every participant is denied never occurs.
`solve_pedestrian_conflicts` takes no `mu` argument at all (its only random
input is the per-record roulette draw), and here participant 0 wins the
roulette and remains `MOVING`, so the all-denied outcome demanded (with
probability `mu`) by the claim is not reachable for any draw value. -/
theorem solve_pedestrian_conflicts_no_friction_counterexample :
    2 ≤ (claimants_upto c3_peds c3_peds.length ⟨1, 2⟩).length ∧
    ((resolved_pedestrians c3_peds c3_draws).getD 0 default).state = MOVING := by
  constructor
  · decide
  · rw [c3_eval]
    rfl

theorem roulette_go_replicate_bounds (draw : ℚ) :
    ∀ n : ℕ, 1 ≤ n → ∀ (i : ℕ) (s : ℚ) (index : ℤ),
      (i : ℤ) ≤ roulette_wheel_selection_go draw (List.replicate n 1) i s index ∧
      roulette_wheel_selection_go draw (List.replicate n 1) i s index <
        (i : ℤ) + n := by
  intro n
  induction n with
  | zero => omega
  | succ m ih =>
    intro _ i s index
    rw [List.replicate_succ]
    simp only [roulette_wheel_selection_go]
    rw [if_neg one_ne_zero]
    by_cases hd : draw ≤ s + 1 + TOLERANCE
    · rw [if_pos hd]
      push_cast
      omega
    · rw [if_neg hd]
      cases m with
      | zero =>
        simp only [List.replicate_zero, roulette_wheel_selection_go]
        push_cast
        omega
      | succ m2 =>
        have h := ih (by omega) (i + 1) (s + 1) (i : ℤ)
        push_cast at h ⊢
        omega

theorem roulette_wheel_selection_replicate_bounds (draw : ℚ) (n : ℕ)
    (hn : 1 ≤ n) :
    0 ≤ roulette_wheel_selection (List.replicate n 1) draw ∧
    roulette_wheel_selection (List.replicate n 1) draw < (n : ℤ) := by
  have h := roulette_go_replicate_bounds draw n hn 0 0 (-1)
  unfold roulette_wheel_selection
  constructor
  · simpa using h.1
  · simpa using h.2

/-- **C3 (amended).** For every cell contested by at least two pedestrians,
`solve_pedestrian_conflicts` applies no friction: for every draw configuration
a roulette over equal unit weights picks exactly one winner, which remains
`MOVING`, and every other participant transitions `MOVING → STOPPED`.  (The
function reads no `mu`: its only random inputs are the per-record roulette
draws.) -/
theorem solve_pedestrian_conflicts_one_winner (peds : List Pedestrian)
    (draws : ℕ → ℚ) (c : Loc)
    (h2 : 2 ≤ (claimants_upto peds peds.length c).length) :
    ∃ w ∈ claimants_upto peds peds.length c,
      ((resolved_pedestrians peds draws).getD w default).state = MOVING ∧
      ∀ j ∈ claimants_upto peds peds.length c, j ≠ w →
        ((resolved_pedestrians peds draws).getD j default).state = STOPPED := by
  obtain ⟨k, hgrid, hk, hids⟩ := identify_cell_record peds c h2
  have hmlen : ((identify_pedestrian_conflicts peds).getD k
      default).pedestrian_ids.length =
      (claimants_upto peds peds.length c).length := by
    rw [hids, claimant_ids_length]
  have hb := roulette_wheel_selection_replicate_bounds (draws k)
    ((identify_pedestrian_conflicts peds).getD k default).pedestrian_ids.length
    (by omega)
  have hrn : (roulette_wheel_selection (List.replicate
      ((identify_pedestrian_conflicts peds).getD k
        default).pedestrian_ids.length 1) (draws k)).toNat <
      (claimants_upto peds peds.length c).length := by
    omega
  refine ⟨(claimants_upto peds peds.length c).getD
    (roulette_wheel_selection (List.replicate
      ((identify_pedestrian_conflicts peds).getD k
        default).pedestrian_ids.length 1) (draws k)).toNat 0, ?_, ?_, ?_⟩
  · rw [List.getD_eq_getElem _ 0 hrn]
    exact List.getElem_mem hrn
  · have hw_mem : (claimants_upto peds peds.length c).getD
        (roulette_wheel_selection (List.replicate
          ((identify_pedestrian_conflicts peds).getD k
            default).pedestrian_ids.length 1) (draws k)).toNat 0 ∈
        claimants_upto peds peds.length c := by
      rw [List.getD_eq_getElem _ 0 hrn]
      exact List.getElem_mem hrn
    have htw := ((mem_claimants_upto peds peds.length c _).mp hw_mem).2
    have huntouched : (resolved_pedestrians peds draws).getD
        ((claimants_upto peds peds.length c).getD
          (roulette_wheel_selection (List.replicate
            ((identify_pedestrian_conflicts peds).getD k
              default).pedestrian_ids.length 1) (draws k)).toNat 0) default =
        peds.getD ((claimants_upto peds peds.length c).getD
          (roulette_wheel_selection (List.replicate
            ((identify_pedestrian_conflicts peds).getD k
              default).pedestrian_ids.length 1) (draws k)).toNat 0) default := by
      unfold resolved_pedestrians
      rw [solve_pedestrian_conflicts_fst]
      apply solve_fold_untouched
      intro kc hkc qid hqid htn
      obtain ⟨k2, hk2, hkc_eq⟩ := List.mem_iff_getElem.mp hkc
      subst hkc_eq
      rw [List.enum_length] at hk2
      simp only [List.getElem_enum] at hqid htn ⊢
      obtain ⟨q, hq, hqid_eq⟩ := List.mem_iff_getElem.mp hqid
      subst hqid_eq
      rw [List.enum_length] at hq
      simp only [List.getElem_enum] at htn ⊢
      obtain ⟨c2, hgrid2, h2c2, hids2⟩ := identify_record_char peds k2 hk2
      have hgd : ((identify_pedestrian_conflicts peds)[k2]) =
          (identify_pedestrian_conflicts peds).getD k2 default :=
        (List.getD_eq_getElem _ _ hk2).symm
      have hids2 : ((identify_pedestrian_conflicts peds)[k2]).pedestrian_ids =
          claimant_ids peds peds.length c2 := by
        rw [hgd]
        exact hids2
      have hq2 : q < (claimants_upto peds peds.length c2).length := by
        rw [← claimant_ids_length, ← hids2]
        exact hq
      have htn2 : ((((identify_pedestrian_conflicts peds)[k2]).pedestrian_ids.getD
          q 0 : ℤ) - 1).toNat =
          (claimants_upto peds peds.length c).getD
            (roulette_wheel_selection (List.replicate
              ((identify_pedestrian_conflicts peds).getD k
                default).pedestrian_ids.length 1) (draws k)).toNat 0 := by
        rw [List.getD_eq_getElem _ 0 hq]
        exact htn
      rw [hids2, claimant_ids_getElem peds peds.length c2 q hq2] at htn2
      have hwq : (claimants_upto peds peds.length c2).getD q 0 =
          (claimants_upto peds peds.length c).getD
            (roulette_wheel_selection (List.replicate
              ((identify_pedestrian_conflicts peds).getD k
                default).pedestrian_ids.length 1) (draws k)).toNat 0 := by
        omega
      have hw2 : (claimants_upto peds peds.length c).getD
          (roulette_wheel_selection (List.replicate
            ((identify_pedestrian_conflicts peds).getD k
              default).pedestrian_ids.length 1) (draws k)).toNat 0 ∈
          claimants_upto peds peds.length c2 := by
        rw [← hwq, List.getD_eq_getElem _ 0 hq2]
        exact List.getElem_mem hq2
      have htw2 := ((mem_claimants_upto peds peds.length c2 _).mp hw2).2
      have hcc : c2 = c := targets_cell_unique peds c2 c _ htw2 htw
      subst hcc
      have hkk : k2 = k := by
        rw [hgrid2] at hgrid
        omega
      subst hkk
      have hqe : (claimants_upto peds peds.length c2)[q] =
          (claimants_upto peds peds.length c2)[(roulette_wheel_selection
            (List.replicate ((identify_pedestrian_conflicts peds).getD k2
              default).pedestrian_ids.length 1) (draws k2)).toNat] := by
        rw [← List.getD_eq_getElem _ 0 hq2, ← List.getD_eq_getElem _ 0 hrn]
        exact hwq
      have hqr : q = (roulette_wheel_selection (List.replicate
          ((identify_pedestrian_conflicts peds).getD k2
            default).pedestrian_ids.length 1) (draws k2)).toNat :=
        (List.Nodup.getElem_inj_iff
          (claimants_upto_nodup peds peds.length c2)).mp hqe
      rw [hgd]
      have h0 := hb.1
      omega
    rw [huntouched]
    unfold targets_cell at htw
    rw [Bool.and_eq_true, beq_iff_eq, beq_iff_eq] at htw
    exact htw.1
  · intro j hj hjw
    obtain ⟨qj, hqj_lt, hqj⟩ := List.mem_iff_getElem.mp hj
    apply resolved_loser_stopped peds draws c j hj qj hqj_lt
      (by rw [List.getD_eq_getElem _ 0 hqj_lt]; exact hqj) k hk hids
    intro hqr
    apply hjw
    have hq : qj = (roulette_wheel_selection (List.replicate
        ((identify_pedestrian_conflicts peds).getD k
          default).pedestrian_ids.length 1) (draws k)).toNat := by
      omega
    rw [← hqj, ← List.getD_eq_getElem _ 0 hqj_lt, hq]

/-- **C3 witness.** The two-pedestrian conflict over cell `(1,2)` has two
claimants, and some claimant wins — it stays `MOVING` while every other
claimant is `STOPPED`. -/
theorem solve_pedestrian_conflicts_one_winner_witness :
    2 ≤ (claimants_upto c3_peds c3_peds.length ⟨1, 2⟩).length ∧
    ∃ w ∈ claimants_upto c3_peds c3_peds.length ⟨1, 2⟩,
      ((resolved_pedestrians c3_peds c3_draws).getD w default).state = MOVING ∧
      ∀ j ∈ claimants_upto c3_peds c3_peds.length ⟨1, 2⟩, j ≠ w →
        ((resolved_pedestrians c3_peds c3_draws).getD j default).state = STOPPED :=
  ⟨by decide,
   solve_pedestrian_conflicts_one_winner c3_peds c3_draws ⟨1, 2⟩ (by decide)⟩

theorem loc_eq_iff (a b : Loc) : a = b ↔ a.lin = b.lin ∧ a.col = b.col := by
  cases a
  cases b
  simp [Loc.mk.injEq]

/-- The closed von-Neumann neighborhood of `c`: the only five cells from which
a pedestrian can reach `c` in one step when its probability table vanishes off
the `(i == 1 || j == 1)` cross. -/
def von_neumann_closed (c : Loc) : List Loc :=
  [⟨c.lin - 1, c.col⟩, ⟨c.lin, c.col - 1⟩, c, ⟨c.lin, c.col + 1⟩,
   ⟨c.lin + 1, c.col⟩]

theorem transition_selection_go_char (p : Pedestrian) (draw : ℚ) :
    ∀ (l : List (Fin 3 × Fin 3)) (total : ℚ),
      transition_selection_go p draw l total = p.current ∨
      ∃ ij ∈ l, p.probabilities ij.1 ij.2 ≠ 0 ∧
        transition_selection_go p draw l total =
          Loc.mk (p.current.lin + ((ij.1 : ℕ) : ℤ) - 1)
                 (p.current.col + ((ij.2 : ℕ) : ℤ) - 1) := by
  intro l
  induction l with
  | nil => intro total; exact Or.inl rfl
  | cons ij rest ih =>
    intro total
    by_cases hz : p.probabilities ij.1 ij.2 = 0
    · have he : transition_selection_go p draw (ij :: rest) total =
          transition_selection_go p draw rest total := by
        simp only [transition_selection_go]
        rw [if_pos hz]
      rw [he]
      rcases ih total with h | ⟨ij2, hm, hz2, h⟩
      · exact Or.inl h
      · exact Or.inr ⟨ij2, List.mem_cons_of_mem _ hm, hz2, h⟩
    · by_cases hd : draw ≤ total + p.probabilities ij.1 ij.2 + TOLERANCE
      · refine Or.inr ⟨ij, List.mem_cons_self _ _, hz, ?_⟩
        simp only [transition_selection_go]
        rw [if_neg hz, if_pos hd]
      · have he : transition_selection_go p draw (ij :: rest) total =
            transition_selection_go p draw rest
              (total + p.probabilities ij.1 ij.2) := by
          simp only [transition_selection_go]
          rw [if_neg hz, if_neg hd]
        rw [he]
        rcases ih _ with h | ⟨ij2, hm, hz2, h⟩
        · exact Or.inl h
        · exact Or.inr ⟨ij2, List.mem_cons_of_mem _ hm, hz2, h⟩

/-- A pedestrian whose probability table vanishes off the cross can only be
sent, by `transition_selection`, to a cell whose closed von-Neumann
neighborhood contains its current cell. -/
theorem transition_selection_mem_von_neumann (p : Pedestrian) (draw : ℚ)
    (hcross : ∀ a b : Fin 3, p.probabilities a b ≠ 0 → a = 1 ∨ b = 1) :
    p.current ∈ von_neumann_closed (transition_selection p draw) := by
  unfold transition_selection
  rcases transition_selection_go_char p draw fin3_pairs 0 with h | ⟨ij, hm, hz, he⟩
  · rw [h]
    unfold von_neumann_closed
    simp
  · rw [he]
    have hc := hcross ij.1 ij.2 hz
    unfold fin3_pairs at hm
    simp only [List.mem_cons, List.not_mem_nil, or_false] at hm
    unfold von_neumann_closed
    have e0 : (((0 : Fin 3) : ℕ) : ℤ) = 0 := by decide
    have e1 : (((1 : Fin 3) : ℕ) : ℤ) = 1 := by decide
    have e2 : (((2 : Fin 3) : ℕ) : ℤ) = 2 := by decide
    rcases hm with hij|hij|hij|hij|hij|hij|hij|hij|hij <;> subst hij <;>
      first
        | exact absurd hc (by decide)
        | (simp only [List.mem_cons, List.not_mem_nil, or_false, loc_eq_iff,
             e0, e1, e2]
           omega)

/-- When a pedestrian's stored diagonal probabilities are zero, its freshly
computed transition table vanishes off the cross as well: the first loop never
writes the diagonal positions (`if(i == 1 || j == 1)`). -/
theorem calculate_transition_probabilities_cross (expf : ℚ → ℚ) (args : Args)
    (static_floor_field dynamic_floor_field : Double_Grid)
    (pedestrian_position_grid : Int_Grid) (p : Pedestrian) (a b : Fin 3)
    (hdiag : ∀ a b : Fin 3, ¬(a = 1 ∨ b = 1) → p.probabilities a b = 0)
    (h : calculate_transition_probabilities expf args static_floor_field
      dynamic_floor_field pedestrian_position_grid p a b ≠ 0) :
    a = 1 ∨ b = 1 := by
  by_contra hc
  apply h
  unfold calculate_transition_probabilities transition_probability_entry
  rw [if_neg hc, hdiag a b hc, zero_mul]

theorem evaluate_pedestrians_movements_length (expf : ℚ → ℚ) (args : Args)
    (static_floor_field dynamic_floor_field : Double_Grid)
    (pedestrian_position_grid : Int_Grid) (peds : List Pedestrian)
    (draws : ℕ → ℚ) :
    (evaluate_pedestrians_movements expf args static_floor_field
      dynamic_floor_field pedestrian_position_grid peds draws).length =
      peds.length := by
  unfold evaluate_pedestrians_movements
  rw [List.length_mapIdx]

theorem evaluate_pedestrians_movements_getD (expf : ℚ → ℚ) (args : Args)
    (static_floor_field dynamic_floor_field : Double_Grid)
    (pedestrian_position_grid : Int_Grid) (peds : List Pedestrian)
    (draws : ℕ → ℚ) (i : ℕ) (hi : i < peds.length) :
    (evaluate_pedestrians_movements expf args static_floor_field
      dynamic_floor_field pedestrian_position_grid peds draws).getD i default =
      if (peds.getD i default).state = MOVING then
        {peds.getD i default with
          probabilities := calculate_transition_probabilities expf args
            static_floor_field dynamic_floor_field pedestrian_position_grid
            (peds.getD i default),
          target := transition_selection
            {peds.getD i default with
              probabilities := calculate_transition_probabilities expf args
                static_floor_field dynamic_floor_field pedestrian_position_grid
                (peds.getD i default)} (draws i)}
      else peds.getD i default := by
  rw [List.getD_eq_getElem _ _ (by
    rw [evaluate_pedestrians_movements_length]
    exact hi)]
  unfold evaluate_pedestrians_movements
  rw [List.getElem_mapIdx, List.getD_eq_getElem _ _ hi]

/-- After `evaluate_pedestrians_movements`, a cell has at most 5 claimants:
every claimant's current cell lies in the closed von-Neumann neighborhood of
the contested cell, and currents are pairwise distinct. -/
theorem evaluate_claimants_le_five (expf : ℚ → ℚ) (args : Args)
    (static_floor_field dynamic_floor_field : Double_Grid)
    (pedestrian_position_grid : Int_Grid) (peds : List Pedestrian)
    (draws : ℕ → ℚ) (c : Loc) (P : ℕ) (hP : P ≤ peds.length)
    (hinj : ∀ i j : ℕ, i < peds.length → j < peds.length →
      (peds.getD i default).current = (peds.getD j default).current → i = j)
    (hdiag : ∀ i : ℕ, i < peds.length → ∀ a b : Fin 3, ¬(a = 1 ∨ b = 1) →
      (peds.getD i default).probabilities a b = 0) :
    (claimants_upto (evaluate_pedestrians_movements expf args
      static_floor_field dynamic_floor_field pedestrian_position_grid peds
      draws) P c).length ≤ 5 := by
  have hcur : ∀ i ∈ claimants_upto (evaluate_pedestrians_movements expf args
      static_floor_field dynamic_floor_field pedestrian_position_grid peds
      draws) P c,
      (peds.getD i default).current ∈ von_neumann_closed c := by
    intro i hi
    obtain ⟨hiP, hti⟩ := (mem_claimants_upto _ P c i).mp hi
    have hilen : i < peds.length := lt_of_lt_of_le hiP hP
    unfold targets_cell at hti
    rw [Bool.and_eq_true, beq_iff_eq, beq_iff_eq] at hti
    rw [evaluate_pedestrians_movements_getD expf args static_floor_field
      dynamic_floor_field pedestrian_position_grid peds draws i hilen] at hti
    by_cases hmov : (peds.getD i default).state = MOVING
    · rw [if_pos hmov] at hti
      have htgt : transition_selection
          {peds.getD i default with
            probabilities := calculate_transition_probabilities expf args
              static_floor_field dynamic_floor_field pedestrian_position_grid
              (peds.getD i default)} (draws i) = c := hti.2
      have hcross : ∀ a b : Fin 3,
          ({peds.getD i default with
            probabilities := calculate_transition_probabilities expf args
              static_floor_field dynamic_floor_field pedestrian_position_grid
              (peds.getD i default)} : Pedestrian).probabilities a b ≠ 0 →
          a = 1 ∨ b = 1 := by
        intro a b hab
        exact calculate_transition_probabilities_cross expf args
          static_floor_field dynamic_floor_field pedestrian_position_grid
          (peds.getD i default) a b (hdiag i hilen) hab
      have hmem := transition_selection_mem_von_neumann
        {peds.getD i default with
          probabilities := calculate_transition_probabilities expf args
            static_floor_field dynamic_floor_field pedestrian_position_grid
            (peds.getD i default)} (draws i) hcross
      rw [htgt] at hmem
      exact hmem
    · rw [if_neg hmov] at hti
      exact absurd hti.1 hmov
  have hmapnodup : ((claimants_upto (evaluate_pedestrians_movements expf args
      static_floor_field dynamic_floor_field pedestrian_position_grid peds
      draws) P c).map (fun i => (peds.getD i default).current)).Nodup := by
    apply List.Nodup.map_on
    · intro x hx y hy hxy
      obtain ⟨hxP, _⟩ := (mem_claimants_upto _ P c x).mp hx
      obtain ⟨hyP, _⟩ := (mem_claimants_upto _ P c y).mp hy
      exact hinj x y (lt_of_lt_of_le hxP hP) (lt_of_lt_of_le hyP hP) hxy
    · exact claimants_upto_nodup _ P c
  have hsub : ((claimants_upto (evaluate_pedestrians_movements expf args
      static_floor_field dynamic_floor_field pedestrian_position_grid peds
      draws) P c).map (fun i => (peds.getD i default).current)).toFinset ⊆
      (von_neumann_closed c).toFinset := by
    intro x hx
    rw [List.mem_toFinset] at hx ⊢
    obtain ⟨i, hi, hix⟩ := List.mem_map.mp hx
    rw [← hix]
    exact hcur i hi
  calc (claimants_upto (evaluate_pedestrians_movements expf args
        static_floor_field dynamic_floor_field pedestrian_position_grid peds
        draws) P c).length
      = ((claimants_upto (evaluate_pedestrians_movements expf args
          static_floor_field dynamic_floor_field pedestrian_position_grid peds
          draws) P c).map (fun i => (peds.getD i default).current)).length :=
        (List.length_map _ _).symm
    _ = ((claimants_upto (evaluate_pedestrians_movements expf args
          static_floor_field dynamic_floor_field pedestrian_position_grid peds
          draws) P c).map
            (fun i => (peds.getD i default).current)).toFinset.card :=
        (List.toFinset_card_of_nodup hmapnodup).symm
    _ ≤ (von_neumann_closed c).toFinset.card := Finset.card_le_card hsub
    _ ≤ (von_neumann_closed c).length := List.toFinset_card_le _
    _ = 5 := rfl

/-- **C10.** In any reachable time step — pedestrian currents pairwise
distinct, stored diagonal probabilities zero (the tables are zero-initialised
and the scoring loop never writes a diagonal) — at most 5 ≤ 8 pedestrians
target the same cell after `evaluate_pedestrians_movements`, so no conflict
record of `identify_pedestrian_conflicts` ever holds more than 8 ids and the
fixed `pedestrian_ids[8]` array of `cell_conflict` is never written out of
bounds. -/
theorem identify_pedestrian_conflicts_record_bound (expf : ℚ → ℚ) (args : Args)
    (static_floor_field dynamic_floor_field : Double_Grid)
    (pedestrian_position_grid : Int_Grid) (peds : List Pedestrian)
    (draws : ℕ → ℚ)
    (hinj : ∀ i j : ℕ, i < peds.length → j < peds.length →
      (peds.getD i default).current = (peds.getD j default).current → i = j)
    (hdiag : ∀ i : ℕ, i < peds.length → ∀ a b : Fin 3, ¬(a = 1 ∨ b = 1) →
      (peds.getD i default).probabilities a b = 0) :
    ∀ conf ∈ identify_pedestrian_conflicts (evaluate_pedestrians_movements
      expf args static_floor_field dynamic_floor_field
      pedestrian_position_grid peds draws),
      conf.pedestrian_ids.length ≤ 8 := by
  intro conf hconf
  obtain ⟨k, hk, hek⟩ := List.mem_iff_getElem.mp hconf
  obtain ⟨c, _, _, hids⟩ := identify_record_char (evaluate_pedestrians_movements
    expf args static_floor_field dynamic_floor_field pedestrian_position_grid
    peds draws) k hk
  have hc2 : conf = (identify_pedestrian_conflicts
      (evaluate_pedestrians_movements expf args static_floor_field
        dynamic_floor_field pedestrian_position_grid peds draws)).getD k
      default := by
    rw [← hek, List.getD_eq_getElem _ _ hk]
  have hlen : conf.pedestrian_ids.length =
      (claimants_upto (evaluate_pedestrians_movements expf args
        static_floor_field dynamic_floor_field pedestrian_position_grid peds
        draws) (evaluate_pedestrians_movements expf args static_floor_field
          dynamic_floor_field pedestrian_position_grid peds draws).length
        c).length := by
    rw [hc2, hids, claimant_ids_length]
  have h5 := evaluate_claimants_le_five expf args static_floor_field
    dynamic_floor_field pedestrian_position_grid peds draws c
    (evaluate_pedestrians_movements expf args static_floor_field
      dynamic_floor_field pedestrian_position_grid peds draws).length
    (le_of_eq (evaluate_pedestrians_movements_length expf args
      static_floor_field dynamic_floor_field pedestrian_position_grid peds
      draws)) hinj hdiag
  omega

/-- **C10 witness.** The record bound applied to the concrete two-pedestrian
scene (distinct currents, zeroed probability tables). -/
theorem identify_pedestrian_conflicts_record_bound_witness :
    (∀ i j : ℕ, i < c3_peds.length → j < c3_peds.length →
      (c3_peds.getD i default).current = (c3_peds.getD j default).current →
      i = j) ∧
    ∀ conf ∈ identify_pedestrian_conflicts (evaluate_pedestrians_movements
      (fun _ => 1) ⟨5, 5, 1, 1, false, false, false, 0, true⟩ (fun _ => 0)
      (fun _ => 0) (fun _ => 0) c3_peds c3_draws),
      conf.pedestrian_ids.length ≤ 8 :=
  ⟨by
    intro i j hi hj h
    have hi2 : i < 2 := hi
    have hj2 : j < 2 := hj
    interval_cases i <;> interval_cases j <;>
      first
        | rfl
        | exact absurd h (by decide),
   identify_pedestrian_conflicts_record_bound (fun _ => 1)
     ⟨5, 5, 1, 1, false, false, false, 0, true⟩ (fun _ => 0) (fun _ => 0)
     (fun _ => 0) c3_peds c3_draws
     (by
       intro i j hi hj h
       have hi2 : i < 2 := hi
       have hj2 : j < 2 := hj
       interval_cases i <;> interval_cases j <;>
         first
           | rfl
           | exact absurd h (by decide))
     (by
       intro i hi a b hab
       have hi2 : i < 2 := hi
       interval_cases i <;> rfl)⟩
